import Mathlib

/-!
Verification development for the SFILES2 flowsheet codec
(`Flowsheet_Class/nx_to_sfiles.py` and `Flowsheet_Class/flowsheet.py`).

The Python source is shallowly embedded: the mutable `networkx.DiGraph` is an
explicit `Graph` value threaded through the functions that mutate it, Python
`dict`s are association lists preserving insertion order, and every loop whose
termination is not structural carries an explicit fuel argument (`none` models
a Python exception or non-termination; all theorems about concrete runs prove
a `some`/`ok` result).  Machine arithmetic note: `calc_graph_invariant` uses
`numpy` int64 vectors; values in every run analysed here stay far below 2^63,
where int64 and `Nat` arithmetic agree, so the embedding uses exact `Nat`s.
-/

namespace SFILES2

/-- Python `dict` lookup on an insertion-ordered association list. -/
def alGet {α : Type} (m : List (String × α)) (k : String) : Option α :=
  (m.find? (fun p => p.1 == k)).map Prod.snd

/-- Python `dict` assignment: update in place if the key exists, else append. -/
def alSet {α : Type} (m : List (String × α)) (k : String) (v : α) : List (String × α) :=
  match m with
  | [] => [(k, v)]
  | (k0, v0) :: rest => if k0 = k then (k, v) :: rest else (k0, v0) :: alSet rest k v

/-- Python `needle in hay` substring test on strings. -/
def strContains (hay needle : String) : Bool :=
  decide (needle.data <:+: hay.data)

/-- Code-point lexicographic `<=` on char lists (Python string comparison). -/
def charListLe : List Char → List Char → Bool
  | [], _ => true
  | _ :: _, [] => false
  | a :: as, b :: bs =>
    if a.val < b.val then true
    else if b.val < a.val then false
    else charListLe as bs

/-- Python string comparison `a <= b` (code-point lexicographic). -/
def strLe (a b : String) : Bool := charListLe a.data b.data

/-- Edge tags: the Python dict `{'he': [...], 'col': [...], 'signal': [...]}`,
as an insertion-ordered association list (keys may be absent, as in the
`add_stream` default which has no `'signal'` key). -/
abbrev TagDict := List (String × List String)

/-- A directed edge `(source, target, attributes)`; `none` models an edge added
without a `tags` attribute (e.g. the virtual-root edges in `nx_to_SFILES`). -/
abbrev Edge := String × String × Option TagDict

/-- The `networkx.DiGraph` state: node list and edge list in insertion order. -/
structure Graph where
  nodes : List String
  edges : List Edge
deriving DecidableEq, Repr

/-- `G.add_node(n)`: no-op if present (insertion order preserved). -/
def Graph.addNode (g : Graph) (n : String) : Graph :=
  if n ∈ g.nodes then g else { g with nodes := g.nodes ++ [n] }

/-- `G.add_edge(u, v, **attrs)`: auto-adds missing endpoints; re-adding an
existing edge keeps its position and updates the `tags` attribute only when
one is supplied. -/
def Graph.addEdge (g : Graph) (u v : String) (t : Option TagDict) : Graph :=
  let g1 := (g.addNode u).addNode v
  if g1.edges.any (fun e => decide (e.1 = u ∧ e.2.1 = v)) then
    { g1 with edges := g1.edges.map (fun e =>
        if e.1 = u ∧ e.2.1 = v then
          (u, v, match t with | some x => some x | none => e.2.2)
        else e) }
  else { g1 with edges := g1.edges ++ [(u, v, t)] }

/-- `G.remove_edges_from(pairs)` (attributes-irrelevant removal by endpoints). -/
def Graph.removeEdges (g : Graph) (pairs : List (String × String)) : Graph :=
  { g with edges := g.edges.filter (fun e => decide (¬ (e.1, e.2.1) ∈ pairs)) }

/-- `G.remove_nodes_from(ns)`: removes the nodes and all incident edges. -/
def Graph.removeNodes (g : Graph) (ns : List String) : Graph :=
  { nodes := g.nodes.filter (fun n => decide (¬ n ∈ ns)),
    edges := g.edges.filter (fun e => decide (¬ e.1 ∈ ns ∧ ¬ e.2.1 ∈ ns)) }

/-- `list(G.successors(u))` in adjacency (insertion) order. -/
def Graph.successors (g : Graph) (u : String) : List String :=
  g.edges.filterMap (fun e => if e.1 = u then some e.2.1 else none)

/-- `list(G.predecessors(v))` in insertion order. -/
def Graph.predecessors (g : Graph) (v : String) : List String :=
  g.edges.filterMap (fun e => if e.2.1 = v then some e.1 else none)

/-- `G.in_degree(v)`. -/
def Graph.inDegree (g : Graph) (v : String) : Nat :=
  (g.edges.filter (fun e => decide (e.2.1 = v))).length

/-- `G.out_degree(u)`. -/
def Graph.outDegree (g : Graph) (u : String) : Nat :=
  (g.edges.filter (fun e => decide (e.1 = u))).length

/-- `list(G.in_edges(v, data=True))` in insertion order. -/
def Graph.inEdges (g : Graph) (v : String) : List Edge :=
  g.edges.filter (fun e => decide (e.2.1 = v))

/-- `list(G.out_edges(u, data=True))` in insertion order. -/
def Graph.outEdges (g : Graph) (u : String) : List Edge :=
  g.edges.filter (fun e => decide (e.1 = u))

/-- Adjacency in the undirected view `nx.to_undirected(G)` (self-loops kept). -/
def undirAdj (g : Graph) (a b : String) : Bool :=
  g.edges.any (fun e => decide ((e.1 = a ∧ e.2.1 = b) ∨ (e.1 = b ∧ e.2.1 = a)))

/-- One expansion step of undirected reachability. -/
def compStep (g : Graph) (cur : List String) : List String :=
  g.nodes.filter (fun n => decide (n ∈ cur) || cur.any (fun m => undirAdj g m n))

/-- `nx.node_connected_component(to_undirected(G), start)`, as the sublist of
`g.nodes` (graph order) reachable from `start` ignoring edge direction. -/
def componentOf (g : Graph) (start : String) : List String :=
  (compStep g)^[g.nodes.length] [start]

/-- `nx.weakly_connected_components(G)`: components in order of first node,
each listed in graph node order. -/
def weaklyConnectedComponents (g : Graph) : List (List String) :=
  wccAux g.nodes.length g g.nodes
where
  wccAux : Nat → Graph → List String → List (List String)
  | 0, _, _ => []
  | _, _, [] => []
  | fuel + 1, g, n :: rest =>
    let comp := componentOf g n
    comp :: wccAux fuel g ((n :: rest).filter (fun m => decide (¬ m ∈ comp)))

/-- `G.subgraph(ns).copy()`: induced subgraph, orders inherited from `g`. -/
def subgraph (g : Graph) (ns : List String) : Graph :=
  { nodes := g.nodes.filter (fun n => decide (n ∈ ns)),
    edges := g.edges.filter (fun e => decide (e.1 ∈ ns ∧ e.2.1 ∈ ns)) }

/-- Whether an edge carries `tags['signal'] == ['not_next_unitop']`
(the filter used before ranking and before the encoder's DFS). -/
def isNotNextSignal (e : Edge) : Bool :=
  match e.2.2 with
  | none => false
  | some tags =>
    match alGet tags "signal" with
    | none => false
    | some v => v == ["not_next_unitop"]

/-- Removal of `not_next_unitop` signal edges (`remove_edges_from` on the
dict-comprehension filter used in both `calc_graph_invariant` and `dfs`). -/
def removeNotNextSignalEdges (g : Graph) : Graph :=
  { g with edges := g.edges.filter (fun e => ! isNotNextSignal e) }

/-! ## Morgan / extended-connectivity refinement (`calc_graph_invariant`) -/

/-- `nx.to_numpy_array(to_undirected(sg))`: 0/1 adjacency in node order. -/
def adjacencyMatrix (g : Graph) : List (List Nat) :=
  g.nodes.map (fun a => g.nodes.map (fun b => if undirAdj g a b then 1 else 0))

/-- `sum(adjacency_matrix)`: numpy column sums (= row sums, symmetric). -/
def matColSums (A : List (List Nat)) : List Nat :=
  (List.range A.length).map (fun j => (A.map (fun row => row.getD j 0)).sum)

/-- `v @ A`: vector-matrix product. -/
def vecMat (v : List Nat) (A : List (List Nat)) : List Nat :=
  (List.range A.length).map (fun j =>
    ((v.zip A).map (fun p => p.1 * (p.2.getD j 0))).sum)

/-- `np.unique(v).size`: number of distinct entries. -/
def uniqueCount (v : List Nat) : Nat := v.dedup.length

/-- Result of the Morgan `while` loop: the retained refinement vector
(`morgan_iter_dict` values in node order), the number of iterations run
(`maximum_iteration`), and — as instrumentation for the termination claims —
the sequence of `np.unique(...).size` values observed, in order. -/
structure MorganResult where
  dict : List Nat
  iters : Nat
  useq : List Nat
deriving DecidableEq, Repr

/-- The loop `while counter < 5 and maximum_iteration < 100` of
`calc_graph_invariant`.  `fuel` is kept equal to `100 - maxIter`, so the
fuel-out branch coincides with the cap test and changes no behaviour. -/
def morganLoop (A : List (List Nat)) : Nat → Nat → Nat → List Nat → Nat →
    List Nat → List Nat → MorganResult
  | 0, _, maxIter, _, _, dict, useqRev => ⟨dict, maxIter, useqRev.reverse⟩
  | fuel + 1, counter, maxIter, m, uvt, dict, useqRev =>
    if counter < 5 ∧ maxIter < 100 then
      let m2 := vecMat m A
      let u := uniqueCount m2
      if u > uvt then
        morganLoop A fuel counter (maxIter + 1) m2 u m2 (u :: useqRev)
      else
        morganLoop A fuel (counter + 1) (maxIter + 1) m2 uvt dict (u :: useqRev)
    else ⟨dict, maxIter, useqRev.reverse⟩

/-- The Morgan refinement stage of `calc_graph_invariant` on one component:
initial vector `connectivity @ A`, then the capped refinement loop. -/
def morganRun (sg : Graph) : MorganResult :=
  let A := adjacencyMatrix sg
  let conn := matColSums A
  let m0 := vecMat conn A
  morganLoop A 100 0 0 m0 0 [] []

/-! ## Tie-breaking (`rank_by_dfs_tree` and helpers) -/

/-- `s.split(sep='-')[0]`: prefix before the first `'-'`. -/
def genName (s : String) : String := String.mk (s.data.takeWhile (fun c => c ≠ '-'))

/-- Python tuple comparison `(a.1, a.2) <= (b.1, b.2)` on string pairs. -/
def pairLe (a b : String × String) : Bool :=
  if a.1 = b.1 then strLe a.2 b.2 else strLe a.1 b.1

/-- Work item of the `nx.dfs_tree` traversal: visit a node, or continue the
successor loop of a node (kept first-order so the recursion stays
fuel-structural and kernel-reducible). -/
inductive DTCall where
  | node : String → DTCall
  | list : String → List String → DTCall

/-- `nx.dfs_tree(g, source)` traversal worker: preorder DFS following
successors in adjacency order, threading the visited list and collecting the
tree edges in discovery order. -/
def dfsTreeGo (g : Graph) : Nat → DTCall → List String →
    (List String × List (String × String))
  | 0, _, visited => (visited, [])
  | fuel + 1, .node n, visited =>
    dfsTreeGo g fuel (.list n (g.successors n)) (visited ++ [n])
  | _ + 1, .list _ [], visited => (visited, [])
  | fuel + 1, .list n (s :: rest), visited =>
    if s ∈ visited then dfsTreeGo g fuel (.list n rest) visited
    else
      let r1 := dfsTreeGo g fuel (.node s) visited
      let r2 := dfsTreeGo g fuel (.list n rest) r1.1
      (r2.1, [(n, s)] ++ r1.2 ++ r2.2)

/-- `nx.dfs_tree(g, source)` tree edges. -/
def dfsTreeEdges (g : Graph) (fuel : Nat) (visited : List String) (n : String) :
    (List String × List (String × String)) :=
  dfsTreeGo g fuel (.node n) visited

/-- The generalized, alphabetically sorted, flattened edge list of
`nx.dfs_tree(sg, n)` built for each tied node in `calc_graph_invariant`. -/
def sortedEdgeList (sg : Graph) (n : String) : List String :=
  let edges := (dfsTreeEdges sg (sg.nodes.length + sg.edges.length + 2) [] n).2
  let edges1 := List.insertionSort (fun a b => pairLe a b = true) edges
  let edges2 := edges1.map (fun p => (genName p.1, genName p.2))
  let edges3 := List.insertionSort (fun a b => pairLe a b = true) edges2
  edges3.foldr (fun p acc => p.1 :: p.2 :: acc) []

/-- One tied node together with its `dfs_trees_generalized` data:
`len` is `len(dfs_trees_generalized[n])`, `succ` is `''.join(list(s))`. -/
structure NodeEntry where
  name : String
  len : Nat
  succ : String
deriving DecidableEq, Repr

/-- `re.match(r'C-\d+', n)`: name starts with `C-` followed by a digit. -/
def isSignalName (n : String) : Bool :=
  match n.data with
  | 'C' :: '-' :: c :: _ => c.isDigit
  | _ => false

/-- Python `str.split` / `re.split` on single-character separators, as a
char-list function (kept first-order so it kernel-reduces). -/
def splitChars (p : Char → Bool) : List Char → List (List Char)
  | [] => [[]]
  | c :: rest =>
    if p c then [] :: splitChars p rest
    else
      match splitChars p rest with
      | h :: t => (c :: h) :: t
      | [] => [[c]]

/-- `int(digits)` for a nonempty all-digit char list. -/
def digitsToNat (cs : List Char) : Option Nat :=
  if cs ≠ [] ∧ cs.all Char.isDigit then
    some (cs.foldl (fun acc c => acc * 10 + (c.toNat - 48)) 0)
  else none

/-- `int(re.split('-|/', k)[1])`: the numeric part after the first `-` or `/`
(0 if absent, where Python would raise — never hit on flowsheet node names). -/
def nodeNum (k : String) : Nat :=
  (digitsToNat ((splitChars (fun c => c == '-' || c == '/') k.data).getD 1 [])).getD 0

/-- Classification of `rank_by_dfs_tree`: 0 = signal, 1 = output, 2 = input,
3 = other, following the source's `if/elif` order
(`'prod' in n` / `succ_str.startswith('raw')` / `re.match(r'C-\d+', n)`). -/
def entryClass (e : NodeEntry) : Nat :=
  if strContains e.name "prod" then 1
  else if "raw".data.isPrefixOf e.succ.data then 2
  else if isSignalName e.name then 0
  else 3

/-- Sort key `(-len, succ, num)` for the signal/output/input dicts
(larger subtree first, then alphabetic, then instance number). -/
def keyLeNeg (a b : NodeEntry) : Bool :=
  if a.len ≠ b.len then decide (b.len < a.len)
  else if a.succ ≠ b.succ then strLe a.succ b.succ
  else decide (nodeNum a.name ≤ nodeNum b.name)

/-- Sort key `(len, succ, num)` for the other-nodes dict. -/
def keyLePos (a b : NodeEntry) : Bool :=
  if a.len ≠ b.len then decide (a.len < b.len)
  else if a.succ ≠ b.succ then strLe a.succ b.succ
  else decide (nodeNum a.name ≤ nodeNum b.name)

/-- The `(len(dfs_trees_generalized[n]), succ_str)` entries of
`rank_by_dfs_tree`, in dict (insertion) order. -/
def entriesOf (d : List (String × List String)) : List NodeEntry :=
  d.map (fun p => NodeEntry.mk p.1 p.2.length (String.join p.2))

/-- `rank_by_dfs_tree(dfs_trees_generalized)`.  The four dicts are built in a
single pass over the items (node names are unique), written here as four
filters with the source's `if/elif` conditions; then each is sorted with
Python's stable `sorted` (modelled by `List.insertionSort`, which is stable)
and concatenated in the source's order: signal, output, input, other. -/
def rank_by_dfs_tree (d : List (String × List String)) : List String :=
  let entries := entriesOf d
  let signalNodes := entries.filter (fun e => entryClass e == 0)
  let outputNodes := entries.filter (fun e => entryClass e == 1)
  let inputNodes := entries.filter (fun e => entryClass e == 2)
  let otherNodes := entries.filter (fun e => entryClass e == 3)
  ((List.insertionSort (fun a b => keyLeNeg a b = true) signalNodes).map NodeEntry.name)
    ++ ((List.insertionSort (fun a b => keyLeNeg a b = true) outputNodes).map NodeEntry.name)
    ++ ((List.insertionSort (fun a b => keyLeNeg a b = true) inputNodes).map NodeEntry.name)
    ++ ((List.insertionSort (fun a b => keyLePos a b = true) otherNodes).map NodeEntry.name)

/-- Tie-broken node order for one component: Morgan ranks ascending, ties
resolved by `rank_by_dfs_tree` (singleton groups by plain `sorted`). -/
def componentOrder (sg : Graph) : List String :=
  let mr := morganRun sg
  let labels := sg.nodes
  let pairs := labels.zip mr.dict
  let distinct := List.insertionSort (fun a b => a ≤ b) mr.dict.dedup
  let ranksList := distinct.map (fun v => (pairs.filter (fun p => p.2 == v)).map Prod.fst)
  let ranksList2 := ranksList.map (fun grp =>
    if grp.length > 1 then
      rank_by_dfs_tree (grp.map (fun n => (n, sortedEdgeList sg n)))
    else List.insertionSort (fun a b => strLe a b = true) grp)
  ranksList2.flatten

/-- `calc_graph_invariant(flowsheet)`: signal-edge-free copy, weakly connected
components sorted largest first (stable), per-component Morgan ranks with
tie-breaking, flattened into unique ranks with a running offset. -/
def calc_graph_invariant (g : Graph) : List (String × Nat) :=
  let gTemp := removeNotNextSignalEdges g
  let sgs := (weaklyConnectedComponents gTemp).map (subgraph gTemp)
  let sgsSorted := List.insertionSort
    (fun a b => decide (b.nodes.length ≤ a.nodes.length)) sgs
  (sgsSorted.foldl
    (fun acc sg =>
      let flat := componentOrder sg
      (acc.1 ++ flat.enum.map (fun p => (p.2, p.1 + 1 + acc.2)),
       acc.2 + sg.nodes.length))
    (([] : List (String × Nat)), 0)).1

/-- `sort_by_rank(nodes_to_sort, ranks, visited)`: nodes having a rank, split
into already-visited (sorted first) and unvisited, each stably sorted by rank. -/
def sort_by_rank (nodesToSort : List String) (ranks : List (String × Nat))
    (visited : List String) : List String :=
  let withRank := nodesToSort.filter (fun n => (alGet ranks n).isSome)
  let cyc := withRank.filter (fun n => decide (n ∈ visited))
  let non := withRank.filter (fun n => decide (¬ n ∈ visited))
  (List.insertionSort (fun a b => (alGet ranks a).getD 0 ≤ (alGet ranks b).getD 0) cyc)
    ++ (List.insertionSort (fun a b => (alGet ranks a).getD 0 ≤ (alGet ranks b).getD 0) non)

/-! ## Nested SFILES token lists and positional insertion -/

/-- An element of the (possibly nested) `sfiles` list: a token string or a
nested sub-list (inserted incoming-branch segments, heat-integration pairs). -/
inductive SElem where
  | s : String → SElem
  | l : List SElem → SElem
deriving Repr

mutual
/-- Structural equality test on nested elements. -/
def beqE : SElem → SElem → Bool
  | .s a, .s b => a == b
  | .l as, .l bs => beqL as bs
  | _, _ => false

/-- Structural equality test on nested lists. -/
def beqL : List SElem → List SElem → Bool
  | [], [] => true
  | a :: as, b :: bs => beqE a b && beqL as bs
  | _, _ => false
end

instance : BEq SElem := ⟨beqE⟩

mutual
/-- `flatten` on one element (a bare string contributes itself). -/
def flattenE : SElem → List String
  | .s x => [x]
  | .l xs => flattenL xs

/-- `flatten(k)`: depth-first flattening of a nested list. -/
def flattenL : List SElem → List String
  | [] => []
  | e :: es => flattenE e ++ flattenL es
end

/-- Python `lst.insert(i, v)` (clamping at the ends, as `list.insert` does). -/
def listInsertPy {α : Type} (lst : List α) (i : Nat) (v : α) : List α :=
  lst.take i ++ [v] ++ lst.drop i

/-- The inner `for idx, i in enumerate(temp_li)` of `find_nested_indices`:
first element whose flattening contains `node` (a bare string element can
never contain the multi-character node token), with its sub-list. -/
def findSubIdx : List SElem → String → Option (Nat × List SElem)
  | [], _ => none
  | .s _ :: rest, node => (findSubIdx rest node).map (fun p => (p.1 + 1, p.2))
  | .l xs :: rest, node =>
    if node ∈ flattenL xs then some (0, xs)
    else (findSubIdx rest node).map (fun p => (p.1 + 1, p.2))

/-- `find_nested_indices(li, node)`: index path to the occurrence of `node`,
recursing into nested lists; `none` models the non-terminating `while True`
when the node occurs nowhere. -/
def find_nested_indices : Nat → List SElem → String → Option (List Nat)
  | 0, _, _ => none
  | fuel + 1, li, node =>
    match li.findIdx? (fun e => e == SElem.s node) with
    | some pos => some [pos]
    | none =>
      match findSubIdx li node with
      | some (idx, xs) => (find_nested_indices fuel xs node).map (fun is => idx :: is)
      | none => none

/-- `insert_element(lst, indices, value)`: insert `value` one past the indexed
position, recursing into nested lists; `none` models the `IndexError` /
`TypeError` cases (index out of range, or indexing into a bare string). -/
def insert_element : List SElem → List Nat → SElem → Option (List SElem)
  | lst, [i], v => some (listInsertPy lst (i + 1) v)
  | lst, i :: rest, v =>
    match lst.get? i with
    | some (.l xs) => (insert_element xs rest v).map (fun xs2 => lst.set i (.l xs2))
    | _ => none
  | _, [], _ => none

/-- Add `off` to the last entry of an index path (`indices[-1] += off`). -/
def bumpLast (indices : List Nat) (off : Nat) : List Nat :=
  match indices.reverse with
  | [] => []
  | last :: restRev => ((last + off) :: restRev).reverse

/-- `position_finder(...)`: index path of `(node)` adjusted by the position
setoffs, together with the updated setoff dicts (`none` on a missing setoff
key — Python `KeyError` — or an absent node occurrence). -/
def position_finder (fuel : Nat) (nps npsc : List (String × Nat)) (node : String)
    (sfiles : List SElem) (cycle : Bool) :
    Option (List Nat × List (String × Nat) × List (String × Nat)) :=
  match find_nested_indices fuel sfiles ("(" ++ node ++ ")") with
  | none => none
  | some indices =>
    if cycle then
      match alGet npsc node, alGet nps node with
      | some offC, some off0 =>
        some (bumpLast indices offC, alSet nps node (off0 + 1), alSet npsc node (offC + 1))
      | _, _ => none
    else
      match alGet nps node with
      | some off0 => some (bumpLast indices off0, alSet nps node (off0 + 1), npsc)
      | none => none

/-- `last_node_finder(sfiles)`: the last `(...)`-delimited token, unwrapped;
`none` models the `UnboundLocalError` (no such token) or the
`AttributeError` on meeting a nested list first. -/
def last_node_finder (sfiles : List SElem) : Option String :=
  go sfiles.reverse
where
  go : List SElem → Option String
  | [] => none
  | .l _ :: _ => none
  | .s x :: rest =>
    if x.data.head? = some '(' ∧ x.data.getLast? = some ')' then
      some (String.mk ((x.data.drop 1).dropLast))
    else go rest

/-- The value recorded in `special_edges`: `'&'` or a cycle number. -/
inductive SpecVal where
  | amp : SpecVal
  | num : Nat → SpecVal
deriving DecidableEq, Repr

/-- The transient per-encode table `special_edges`. -/
abbrev SpecialEdges := List ((String × String) × SpecVal)

/-- Python dict assignment on `special_edges`. -/
def seSet (m : SpecialEdges) (k : String × String) (v : SpecVal) : SpecialEdges :=
  match m with
  | [] => [(k, v)]
  | (k0, v0) :: rest => if k0 = k then (k, v) :: rest else (k0, v0) :: seSet rest k v

/-- Python dict lookup on `special_edges`. -/
def seGet (m : SpecialEdges) (k : String × String) : Option SpecVal :=
  (m.find? (fun p => p.1 == k)).map Prod.snd

/-- `insert_cycle(...)`: splices the outgoing marker `<n` (underscore-prefixed
for signals) after `node1` — in `sfiles` when `pos1_in_sfiles` else in
`sfiles_part` — and the matching incoming marker after `node2` in
`sfiles_part` (`%n` for `n > 9` non-signal, else plain `n`), incrementing the
counter and recording the edge in `special_edges`.  The literal argument
`"last_node"` selects `last_node_finder(sfiles_part)`, as in the source.
Returns (counter, special_edges, sfiles_part, sfiles, setoffs, setoffs_cycle). -/
def insert_cycle (fuel : Nat) (nrPreVisited : Nat) (sfilesPart sfiles : List SElem)
    (specialEdges : SpecialEdges) (nps npsc : List (String × Nat))
    (node1 node2 : String) (inverseSpecialEdge pos1InSfiles : Bool)
    (signal : Bool) :
    Option (Nat × SpecialEdges × List SElem × List SElem ×
      List (String × Nat) × List (String × Nat)) := do
  let (nr, sfilesPart, sfiles, nps, npsc) ←
    if pos1InSfiles then do
      let (pos1, nps, npsc) ← position_finder fuel nps npsc node1 sfiles false
      let nr := nrPreVisited + 1
      let sfiles ← insert_element sfiles pos1
        (.s ("<" ++ (if signal then "_" else "") ++ toString nr))
      pure (nr, sfilesPart, sfiles, nps, npsc)
    else do
      let (pos1, nps, npsc) ← position_finder fuel nps npsc node1 sfilesPart false
      let nr := nrPreVisited + 1
      let sfilesPart ← insert_element sfilesPart pos1
        (.s ("<" ++ (if signal then "_" else "") ++ toString nr))
      pure (nr, sfilesPart, sfiles, nps, npsc)
  let node2 ← if node2 = "last_node" then last_node_finder sfilesPart else pure node2
  let (pos2, nps, npsc) ← position_finder fuel nps npsc node2 sfilesPart true
  let sfilesPart ←
    if nr > 9 ∧ ¬ signal then
      insert_element sfilesPart pos2 (.s ("%" ++ toString nr))
    else
      insert_element sfilesPart pos2 (.s ((if signal then "_" else "") ++ toString nr))
  let specialEdges :=
    if inverseSpecialEdge then seSet specialEdges (node1, node2) (.num nr)
    else seSet specialEdges (node2, node1) (.num nr)
  pure (nr, specialEdges, sfilesPart, sfiles, nps, npsc)

/-! ## The encoder: `dfs` and `nx_to_SFILES` -/

/-- Python `set.add` (membership list, insertion-ordered). -/
def pyAdd (s : List String) (x : String) : List String := if x ∈ s then s else s ++ [x]

/-- The mutable state threaded through `dfs`: the visited set, the flowsheet
graph (mutated by the signal-edge removals and additions), both position
setoff dicts and `special_edges`. -/
structure DfsState where
  visited : List String
  graph : Graph
  nps : List (String × Nat)
  npsc : List (String × Nat)
  special : SpecialEdges
deriving Repr

/-- `{k: flatten(v['signal']) for ...}` on edges with a truthy `signal` tag
(the `edge_infos_signal1` computed at the top of each `dfs` call). -/
def signalEdgeInfos (g : Graph) : List ((String × String) × List String) :=
  g.edges.filterMap (fun e =>
    match e.2.2 with
    | none => none
    | some tags =>
      match alGet tags "signal" with
      | none => none
      | some v => if v.isEmpty then none else some ((e.1, e.2.1), v))

/-- `re.match(r'C-\d+\/[A-Z]+', n)`: control-node name with type suffix. -/
def matchCtrlName (n : String) : Bool :=
  match n.data with
  | 'C' :: '-' :: rest =>
    let ds := rest.takeWhile Char.isDigit
    decide (0 < ds.length) &&
      (match rest.drop ds.length with
       | '/' :: u :: _ => u.isUpper
       | _ => false)
  | _ => false

/-- `if sfiles_part[-1] == '[': sfiles_part.pop()` (`none` on an empty list,
where Python raises `IndexError`). -/
def popBracket (part : List SElem) : Option (List SElem) :=
  match part.getLast? with
  | some e => if beqE e (.s "[") then some part.dropLast else some part
  | none => none

/-- `insert_signal_connections(...)`: signal edges sorted by the rank of their
source node, each spliced as an `<_n`/`_n` signal-cycle pair (independent
counter starting at 0).  The source passes the same list object as both
`sfiles_part` and `sfiles` of `insert_cycle` with `pos1_in_sfiles=False`, so
all insertions land in that one list; the updated `sfiles_part` is therefore
the new `sfiles` here. -/
def insert_signal_connections (fuel : Nat)
    (infos : List ((String × String) × List String)) (ranks : List (String × Nat))
    (sfiles : List SElem) (st : DfsState) : Option (List SElem × DfsState) := do
  let resList := infos.map (fun p => p.1.1)
  let infosSorted :=
    if resList.isEmpty then infos
    else
      let sortedSrc := sort_by_rank resList ranks []
      List.insertionSort
        (fun a b => sortedSrc.indexOf a.1.1 ≤ sortedSrc.indexOf b.1.1) infos
  let r ← infosSorted.foldlM
    (fun (acc : Nat × List SElem × DfsState) p => do
      let (nrSig, sfiles, st) := acc
      match p.2 with
      | [] => none
      | v0 :: _ =>
        if v0 ≠ "" then do
          let (nrSig, special, part, _, nps, npsc) ←
            insert_cycle fuel nrSig sfiles sfiles st.special st.nps st.npsc
              p.1.2 p.1.1 false false true
          pure (nrSig, part, { st with special := special, nps := nps, npsc := npsc })
        else pure acc)
    (0, sfiles, st)
  pure (r.2.1, r.2.2)

/-- Argument bundle distinguishing the three mutually recursive pieces of the
encoder walk: a `dfs` call proper, the `for neighbour` loop of the `virtual`
branch, and the `for neighbour` loop of the branching case.  Bundling them
into one fuel-structural function keeps the definition kernel-reducible. -/
inductive DfsCall where
  | main : DfsState → String → List SElem → Nat → Bool → List SElem → String → DfsCall
  | vloop : DfsState → List String → Nat → Bool → List SElem → List SElem → String → DfsCall
  | bloop : DfsState → String → List String → List SElem → Nat → Bool → List SElem →
      String → DfsCall

/-- `dfs(...)` and its two neighbour loops.  Mirrors the source branch by
branch; `fuel` only bounds recursion depth (`none` = fuel exhausted or a
Python exception inside a helper).  The result is
`(state, sfiles_part, nr_pre_visited, node_insertion, sfiles, first_traversal)`;
the final `Bool` is meaningful only for `vloop` (the loop mutates
`first_traversal`), the other arms return it unchanged. -/
def dfsGo (ranks : List (String × Nat)) :
    Nat → DfsCall → Option (DfsState × List SElem × Nat × String × List SElem × Bool)
  | 0, _ => none
  | fuel + 1, .main st0 currentNode sfilesPart nrPreVisited firstTraversal sfiles
      nodeInsertion => do
    let infos1 := signalEdgeInfos st0.graph
    let st := { st0 with graph := removeNotNextSignalEdges st0.graph }
    if currentNode = "virtual" then do
      let st := { st with visited := pyAdd st.visited "virtual" }
      let neighbours := sort_by_rank (st.graph.successors "virtual") ranks st.visited
      if neighbours.isEmpty then none
      else do
        let (st, lastPart, nr, lastIns, sfiles, _) ←
          dfsGo ranks fuel (.vloop st neighbours nrPreVisited firstTraversal sfiles [] "")
        let (sfiles, st) ← insert_signal_connections (fuel + 1) infos1 ranks sfiles st
        pure (st, lastPart, nr, lastIns, sfiles, firstTraversal)
    else if ¬ currentNode ∈ st.visited then
      let succs := st.graph.successors currentNode
      if succs.length > 1 then do
        let part := sfilesPart ++ [.s ("(" ++ currentNode ++ ")")]
        let st := { st with visited := pyAdd st.visited currentNode }
        let neighbours := sort_by_rank (st.graph.successors currentNode) ranks st.visited
        dfsGo ranks fuel
          (.bloop st currentNode neighbours part nrPreVisited firstTraversal sfiles
            nodeInsertion)
      else
        match succs with
        | [s1] => do
          let part := sfilesPart ++ [.s ("(" ++ currentNode ++ ")")]
          let st := { st with visited := pyAdd st.visited currentNode }
          dfsGo ranks fuel
            (.main st s1 part nrPreVisited firstTraversal sfiles nodeInsertion)
        | _ => do
          let st := { st with visited := pyAdd st.visited currentNode }
          pure (st, sfilesPart ++ [.s ("(" ++ currentNode ++ ")")], nrPreVisited,
            nodeInsertion, sfiles, firstTraversal)
    else if ¬ firstTraversal then
      if matchCtrlName currentNode then
        let g := (st.graph.predecessors currentNode).foldl
          (fun g i =>
            if matchCtrlName i then
              g.addEdge i currentNode (some [("signal", ["not_next_unitop"])])
            else g)
          st.graph
        pure ({ st with graph := g }, sfilesPart, nrPreVisited, nodeInsertion, sfiles,
          firstTraversal)
      else if nodeInsertion = "" ∧ ("(" ++ currentNode ++ ")") ∈ flattenL sfiles then do
        let lastNode ← last_node_finder sfilesPart
        let (pos, nps, npsc) ←
          position_finder (fuel + 1) st.nps st.npsc lastNode sfilesPart true
        let part ← insert_element sfilesPart pos (.s "&")
        let st := { st with nps := nps, npsc := npsc, special := seSet st.special (lastNode, currentNode) SpecVal.amp }
        pure (st, part, nrPreVisited, currentNode, sfiles, firstTraversal)
      else if ("(" ++ currentNode ++ ")") ∈ flattenL sfilesPart then do
        let (nr, special, part, sfiles, nps, npsc) ←
          insert_cycle (fuel + 1) nrPreVisited sfilesPart sfiles st.special st.nps
            st.npsc currentNode "last_node" false false false
        pure ({ st with special := special, nps := nps, npsc := npsc }, part, nr,
          nodeInsertion, sfiles, firstTraversal)
      else do
        let (nr, special, part, sfiles, nps, npsc) ←
          insert_cycle (fuel + 1) nrPreVisited sfilesPart sfiles st.special st.nps
            st.npsc currentNode "last_node" false true false
        pure ({ st with special := special, nps := nps, npsc := npsc }, part, nr,
          nodeInsertion, sfiles, firstTraversal)
    else do
      let (nr, special, part, sfiles, nps, npsc) ←
        insert_cycle (fuel + 1) nrPreVisited sfilesPart sfiles st.special st.nps
          st.npsc currentNode "last_node" false false false
      pure ({ st with special := special, nps := nps, npsc := npsc }, part, nr,
        nodeInsertion, sfiles, firstTraversal)
  | _ + 1, .vloop st [] nr firstT sfiles lastPart lastIns =>
    some (st, lastPart, nr, lastIns, sfiles, firstT)
  | fuel + 1, .vloop st (nb :: rest) nr firstT sfiles _ _ => do
    let (st, part, nr, ins, sfiles, _) ←
      dfsGo ranks fuel (.main st nb [] nr firstT sfiles "")
    if firstT then
      dfsGo ranks fuel (.vloop st rest nr false (sfiles ++ part) part ins)
    else if ins ≠ "" then do
      let part2 := (.s "<&|") :: (part ++ [.s "|"])
      let (pos, nps, npsc) ← position_finder (fuel + 1) st.nps st.npsc ins sfiles false
      let st := { st with nps := nps, npsc := npsc }
      let sfiles2 ← insert_element sfiles pos (.l part2)
      dfsGo ranks fuel (.vloop st rest nr firstT sfiles2 part2 ins)
    else
      dfsGo ranks fuel (.vloop st rest nr firstT (sfiles ++ [.s "n|"] ++ part) part ins)
  | _ + 1, .bloop st _ [] part nr firstT sfiles ins =>
    some (st, part, nr, ins, sfiles, firstT)
  | fuel + 1, .bloop st cur (nb :: rest) part nr firstT sfiles ins => do
    let isLast := rest.isEmpty
    let part := if ¬ isLast then part ++ [.s "["] else part
    if ¬ nb ∈ st.visited then do
      let (st, part, nr, ins, sfiles, _) ←
        dfsGo ranks fuel (.main st nb part nr firstT sfiles ins)
      let part2 ←
        match part.getLast? with
        | some e =>
          if beqE e (.s "[") then some part.dropLast
          else if ¬ isLast then some (part ++ [.s "]"]) else some part
        | none => none
      dfsGo ranks fuel (.bloop st cur rest part2 nr firstT sfiles ins)
    else if firstT then do
      let part ← popBracket part
      let (nr, special, part, sfiles, nps, npsc) ←
        insert_cycle (fuel + 1) nr part sfiles st.special st.nps st.npsc nb cur
          false false false
      let st := { st with special := special, nps := nps, npsc := npsc }
      dfsGo ranks fuel (.bloop st cur rest part nr firstT sfiles ins)
    else do
      let part ← popBracket part
      if matchCtrlName cur then
        let st := { st with graph := st.graph.addEdge cur nb (some [("signal", ["not_next_unitop"])]) }
        dfsGo ranks fuel (.bloop st cur rest part nr firstT sfiles ins)
      else if ins = "" ∧ ¬ ("(" ++ nb ++ ")") ∈ flattenL part then do
        let (pos, nps, npsc) ← position_finder (fuel + 1) st.nps st.npsc cur part true
        let part ← insert_element part pos (.s "&")
        let st := { st with nps := nps, npsc := npsc, special := seSet st.special (cur, nb) SpecVal.amp }
        dfsGo ranks fuel (.bloop st cur rest part nr firstT sfiles nb)
      else if ("(" ++ nb ++ ")") ∈ flattenL part then do
        let (nr, special, part, sfiles, nps, npsc) ←
          insert_cycle (fuel + 1) nr part sfiles st.special st.nps st.npsc nb cur
            true false false
        let st := { st with special := special, nps := nps, npsc := npsc }
        dfsGo ranks fuel (.bloop st cur rest part nr firstT sfiles ins)
      else do
        let (nr, special, part, sfiles, nps, npsc) ←
          insert_cycle (fuel + 1) nr part sfiles st.special st.nps st.npsc nb cur
            true true false
        let st := { st with special := special, nps := nps, npsc := npsc }
        dfsGo ranks fuel (.bloop st cur rest part nr firstT sfiles ins)

/-- `dfs(visited, flowsheet, current_node, sfiles_part, nr_pre_visited, ranks,
..., first_traversal, sfiles, node_insertion)`, with the mutable arguments
bundled in `DfsState`. -/
def dfs (fuel : Nat) (st : DfsState) (currentNode : String) (sfilesPart : List SElem)
    (nrPreVisited : Nat) (ranks : List (String × Nat)) (firstTraversal : Bool)
    (sfiles : List SElem) (nodeInsertion : String) :
    Option (DfsState × List SElem × Nat × String × List SElem) :=
  (dfsGo ranks fuel
    (.main st currentNode sfilesPart nrPreVisited firstTraversal sfiles nodeInsertion)).map
    (fun r => (r.1, r.2.1, r.2.2.1, r.2.2.2.1, r.2.2.2.2.1))
/-! ## SFILES v2 tag passes and generalization -/

/-- Prefix of `x` before the first `'/'` (`x.split(sep='/')[0]`). -/
def splitSlashHead (x : String) : String :=
  String.mk (x.data.takeWhile (fun c => c ≠ '/'))

/-- Insert `tag` immediately before the first element satisfying `p`
(no-op when absent, as the source's search loop then never inserts). -/
def insertBeforeFirst (sv : List String) (p : String → Bool) (tag : String) :
    List String :=
  match sv.findIdx? p with
  | some i => sv.take i ++ [tag] ++ sv.drop i
  | none => sv

/-- The `'&'`-edge search of `SFILES_v2` after `(in_node)` has been seen:
insert before the `&` at nesting counter 0, counting `<&|`/`&` nesting. -/
def insertTagAmpFound : List String → String → String → Nat → List String
  | [], _, _, _ => []
  | s :: rest, inTok, tag, counter =>
    if s = inTok then s :: insertTagAmpFound rest inTok tag 0
    else if s = "&" ∧ counter = 0 then tag :: s :: rest
    else if s = "&" then s :: insertTagAmpFound rest inTok tag (counter - 1)
    else if s = "<&|" then s :: insertTagAmpFound rest inTok tag (counter + 1)
    else s :: insertTagAmpFound rest inTok tag counter

/-- The `'&'`-edge search of `SFILES_v2` before `(in_node)` has been seen. -/
def insertTagAmp : List String → String → String → List String
  | [], _, _ => []
  | s :: rest, inTok, tag =>
    if s = inTok then s :: insertTagAmpFound rest inTok tag 0
    else s :: insertTagAmp rest inTok tag

/-- Tag insertion for one tagged edge in `SFILES_v2` (normal / `&` / recycle
number position). -/
def insertTagsForEdge (sv : List String) (special : SpecialEdges)
    (pair : String × String) (tagList : List String) : List String :=
  let tags := "\x7b" ++ String.intercalate "\x7d\x7b" tagList ++ "\x7d"
  match seGet special pair with
  | none => insertBeforeFirst sv (fun s => s == "(" ++ pair.2 ++ ")") tags
  | some .amp => insertTagAmp sv ("(" ++ pair.1 ++ ")") tags
  | some (.num n) => insertBeforeFirst sv (fun s => s == toString n) tags

/-- `HI_eqs`: base names of heat-integrated `hex` tokens, in first-seen order. -/
def hiNames (sv : List String) : List String :=
  sv.foldl
    (fun acc s =>
      if strContains s "hex" ∧ strContains s "/" then
        let hx := (splitSlashHead s).drop 1
        if hx ∈ acc then acc else acc ++ [hx]
      else acc)
    []

/-- The heat-integration pass of `SFILES_v2`: each shadow-node occurrence of
the `k`-th heat-integrated exchanger gets a `{k}` tag appended (the source
replaces the element by a pair and flattens; `flatten ∘ map` is that). -/
def hiPass (sv : List String) : List String :=
  ((hiNames sv).foldl
    (fun acc hx =>
      ((acc.1.map (fun x =>
          if (splitSlashHead x).drop 1 = hx then
            [x, "\x7b" ++ toString acc.2 ++ "\x7d"]
          else [x])).flatten,
       acc.2 + 1))
    (sv, 1)).1

/-- The control-tag pass of `SFILES_v2`: a token containing `C` and `/` is
split into `(C-n)` followed by a `{TYPE}` tag; iteration index semantics
follow Python's `enumerate` over the list being mutated. -/
def ctrlPass : Nat → Nat → List String → List String
  | 0, _, sv => sv
  | fuel + 1, i, sv =>
    match sv.get? i with
    | none => sv
    | some s =>
      if strContains s "C" ∧ strContains s "/" then
        let tagBody := String.mk (((splitChars (fun c => c == '/') s.data).getD 1 []).dropLast)
        let newTok := splitSlashHead s ++ ")"
        ctrlPass fuel (i + 1)
          (listInsertPy (sv.set i newTok) (i + 1) ("\x7b" ++ tagBody ++ "\x7d"))
      else ctrlPass fuel (i + 1) sv

/-- `SFILES_v2(flowsheet, sfiles, special_edges, remove_hex_tags)`. -/
def SFILES_v2 (g : Graph) (sfiles : List String) (special : SpecialEdges)
    (removeHexTags : Bool) : List String :=
  let edgeInfos0 := g.edges.filterMap (fun e =>
    (e.2.2).map (fun t => ((e.1, e.2.1), t)))
  let edgeInfos1 :=
    if removeHexTags then
      edgeInfos0.filterMap (fun p => (alGet p.2 "col").map (fun c => (p.1, [("col", c)])))
    else edgeInfos0
  let edgeInfos2 := edgeInfos1.map (fun p => (p.1, (p.2.map Prod.snd).flatten))
  let edgeInfos := edgeInfos2.filter (fun p => ¬ p.2.isEmpty)
  let sv := edgeInfos.foldl (fun sv p => insertTagsForEdge sv special p.1 p.2) sfiles
  let sv := hiPass sv
  ctrlPass (2 * sv.length + 2) 0 sv

/-- `re.match(r'\(.*?\)', s)`: starts with `(` and a `)` follows with no
newline before it. -/
def matchesUnit (s : String) : Bool :=
  match s.data with
  | '(' :: rest => closeScan rest
  | _ => false
where
  closeScan : List Char → Bool
  | [] => false
  | c :: rest => if c = ')' then true else if c = '\n' then false else closeScan rest

/-- `generalize_SFILES(sfiles)`: strip `-<number>` instance suffixes from unit
tokens (`s.split(sep='-')[0] + ')'`). -/
def generalize_SFILES (sfiles : List String) : List String :=
  sfiles.map (fun s =>
    if matchesUnit s then String.mk (s.data.takeWhile (fun c => c ≠ '-')) ++ ")" else s)

/-- The `while not_connected` loop of `nx_to_SFILES`: connect the lowest-rank
not-yet-connected node with positive out-degree to the virtual root until the
undirected view is connected to `'virtual'`.  Python iterates the set
difference in unspecified order; since ranks are unique, `sort_by_rank`'s
output does not depend on that order. -/
def connectLoop : Nat → Graph → List (String × Nat) → Option Graph
  | 0, _, _ => none
  | fuel + 1, g, ranks =>
    let connected := componentOf g "virtual"
    let notConnected := g.nodes.filter (fun n => decide (¬ n ∈ connected))
    if notConnected.isEmpty then some g
    else
      match (sort_by_rank notConnected ranks []).filter
          (fun k => decide (0 < g.outDegree k)) with
      | [] => none
      | k :: _ => connectLoop fuel (g.addEdge "virtual" k none) ranks

/-- Result of `nx_to_SFILES`: the returned token list and string, plus the
final state of the caller's (mutated) graph argument. -/
structure EncodeResult where
  tokens : List String
  str : String
  finalGraph : Graph
deriving DecidableEq, Repr

/-- `nx_to_SFILES(flowsheet, version, remove_hex_tags)`.  The graph argument
is mutated by the source (virtual root added, signal edges removed); the
final value of that argument is returned in `finalGraph`. -/
def nx_to_SFILES (flowsheet : Graph) (version : String) (removeHexTags : Bool)
    (fuel : Nat) : Option EncodeResult := do
  let ranks := calc_graph_invariant flowsheet
  let initNodes := flowsheet.nodes.filter (fun n => flowsheet.inDegree n == 0)
  let initNodesSorted := sort_by_rank initNodes ranks []
  let g := flowsheet.addNode "virtual"
  let g := initNodesSorted.foldl (fun g i => g.addEdge "virtual" i none) g
  let ranks := alSet ranks "virtual" 0
  let g ← connectLoop (g.nodes.length + 1) g ranks
  let nps := g.nodes.map (fun n => (n, 0))
  let st : DfsState := ⟨[], g, nps, nps, []⟩
  let (st, _, _, _, sfilesNested) ← dfs fuel st "virtual" [] 0 ranks true [] ""
  let sfiles := flattenL sfilesNested
  if version = "v2" then
    let sv2 := SFILES_v2 st.graph sfiles st.special removeHexTags
    let gen := generalize_SFILES sv2
    pure ⟨gen, String.join gen, st.graph⟩
  else
    let gen := generalize_SFILES sfiles
    pure ⟨gen, String.join gen, st.graph⟩

/-! ## The tokenizer (`SFILES_parser`) -/

/-- Lazy `.+?` up to `close`: the shortest nonempty newline-free body followed
by `close` (the regex `.` does not match a newline). -/
def lazyClose (cs : List Char) (close : Char) : Option (List Char × List Char) :=
  go cs []
where
  go : List Char → List Char → Option (List Char × List Char)
  | [], _ => none
  | c :: rest, accRev =>
    if c = close ∧ accRev ≠ [] then some (accRev.reverse, rest)
    else if c = '\n' then none
    else go rest (c :: accRev)

/-- One attempt of the token regex
`(\(.+?\)|\{.+?\}|[<%_]+\d+|\]|\[|\<\&\||(?<!<)&\||n\||(?<!&)(?<!n)\||&(?!\|)|\d)`
at the current position, alternatives tried in order; `prev` is the character
before the position (for the lookbehinds).  Returns the token, the rest, and
the token's last character. -/
def lexTry (prev : Option Char) (c : Char) (rest : List Char) :
    Option (String × List Char × Char) :=
  if c = '(' then
    match lazyClose rest ')' with
    | some (body, rest2) => some (String.mk ('(' :: body ++ [')']), rest2, ')')
    | none => none
  else if c = '\x7b' then
    match lazyClose rest '\x7d' with
    | some (body, rest2) => some (String.mk ('\x7b' :: body ++ ['\x7d']), rest2, '\x7d')
    | none => none
  else if c = '<' ∨ c = '%' ∨ c = '_' then
    let run := (c :: rest).takeWhile (fun x => x = '<' ∨ x = '%' ∨ x = '_')
    let after := (c :: rest).drop run.length
    let digits := after.takeWhile Char.isDigit
    if digits ≠ [] then
      some (String.mk (run ++ digits), after.drop digits.length, digits.getLastD c)
    else if c = '<' ∧ rest.take 2 = ['&', '|'] then some ("<&|", rest.drop 2, '|')
    else none
  else if c = ']' then some ("]", rest, ']')
  else if c = '[' then some ("[", rest, '[')
  else if c = '&' then
    if rest.headD ' ' = '|' then
      if prev = some '<' then none else some ("&|", rest.drop 1, '|')
    else some ("&", rest, '&')
  else if c = 'n' then
    if rest.headD ' ' = '|' then some ("n|", rest.drop 1, '|') else none
  else if c = '|' then
    if prev = some '&' ∨ prev = some 'n' then none else some ("|", rest, '|')
  else if c.isDigit then some (String.mk [c], rest, c)
  else none

/-- `regex.findall` scan: non-overlapping matches left to right, skipping a
character when no alternative matches there (so unrecognized substrings are
silently dropped — the function is total and never raises). -/
def lexLoop : Nat → Option Char → List Char → List String
  | 0, _, _ => []
  | fuel + 1, prev, cs =>
    match cs with
    | [] => []
    | c :: rest =>
      match lexTry prev c rest with
      | some (tok, rest2, newPrev) => tok :: lexLoop fuel (some newPrev) rest2
      | none => lexLoop fuel (some c) rest

/-- `SFILES_parser(self)`: tokenize an SFILES string with the fixed grammar
regex.  (Name adapted; this embeds the method `SFILES_parser` of
`flowsheet.py`.) -/
def SFILES_tokenize (s : String) : List String :=
  lexLoop (s.data.length + 1) none s.data

/-! ## Renumbering of generalized SFILES -/

/-- `re.match(r"{[0-9]+}", t)`: a heat-integration tag token. -/
def matchesHITag (t : String) : Bool :=
  match t.data with
  | '\x7b' :: rest =>
    let ds := rest.takeWhile Char.isDigit
    decide (0 < ds.length) && decide ((rest.drop ds.length).headD ' ' = '\x7d')
  | _ => false

/-- `re.match(r"{[A-Z]+}", t)`: an uppercase (control-type) tag token. -/
def matchesUpperTag (t : String) : Bool :=
  match t.data with
  | '\x7b' :: rest =>
    let us := rest.takeWhile Char.isUpper
    decide (0 < us.length) && decide ((rest.drop us.length).headD ' ' = '\x7d')
  | _ => false

/-- Strip the wrapping pair of characters (`token[1:-1]`). -/
def stripEnds (s : String) : String := (s.drop 1).dropRight 1

/-- `renumber_generalized_SFILES`: left-to-right renumbering state —
`unit_counting` and `HI_hex` (marker → (base unit name, occurrence count)). -/
structure RenumState where
  counting : List (String × Nat)
  hiHex : List (String × (String × Nat))

/-- One `renumber_generalized_SFILES` step for a unit token: computes the new
unit name from the category, the counting state, and the lookahead token. -/
def renumberUnit (st : RenumState) (unitCat : String) (next? : Option String) :
    (String × RenumState) :=
  match alGet st.counting unitCat with
  | none =>
    let st := { st with counting := alSet st.counting unitCat 1 }
    let unitName := unitCat ++ "-1"
    match next? with
    | some nx =>
      if matchesHITag nx then
        let hiNum := stripEnds nx
        ({ st with hiHex := alSet st.hiHex hiNum (unitName, 1) }, unitName ++ "/1").swap
      else if matchesUpperTag nx then (unitName ++ "/" ++ stripEnds nx, st)
      else (unitName, st)
    | none => (unitName, st)
  | some cnt =>
    match next? with
    | some nx =>
      if matchesHITag nx then
        let hiNum := stripEnds nx
        match alGet st.hiHex hiNum with
        | some (base, occ) =>
          (base ++ "/" ++ toString (occ + 1),
           { st with hiHex := alSet st.hiHex hiNum (base, occ + 1) })
        | none =>
          let unitName := unitCat ++ "-" ++ toString (cnt + 1)
          (unitName ++ "/1",
           { counting := alSet st.counting unitCat (cnt + 1),
             hiHex := alSet st.hiHex hiNum (unitName, 1) })
      else if matchesUpperTag nx then
        (unitCat ++ "-" ++ toString (cnt + 1) ++ "/" ++ stripEnds nx,
         { st with counting := alSet st.counting unitCat (cnt + 1) })
      else
        (unitCat ++ "-" ++ toString (cnt + 1),
         { st with counting := alSet st.counting unitCat (cnt + 1) })
    | none =>
      (unitCat ++ "-" ++ toString (cnt + 1),
       { st with counting := alSet st.counting unitCat (cnt + 1) })

/-- `renumber_generalized_SFILES` main scan (lookahead reads the original next
token, which is not yet modified when inspected — as in the source). -/
def renumberAux : List String → RenumState → List String
  | [], _ => []
  | s :: rest, st =>
    if matchesUnit s then
      let (unitName, st2) := renumberUnit st (stripEnds s) rest.head?
      ("(" ++ unitName ++ ")") :: renumberAux rest st2
    else s :: renumberAux rest st

/-- `renumber_generalized_SFILES`: returns the renumbered token list and the
node-token list (`filter(r.match, sfiles_list)`). -/
def renumber_generalized_SFILES (tokens : List String) : List String × List String :=
  let ts := renumberAux tokens ⟨[], []⟩
  (ts, ts.filter matchesUnit)

/-! ## The structural pass of `create_from_sfiles` -/

/-- Python exception kinds raised (or raisable) by the embedded code. -/
inductive PyErr where
  | valueError
  | typeError
  | runtimeError
  | assertionError
  | indexError
  | keyError
deriving DecidableEq, Repr

/-- The raw tag payload attached to a decoded edge: a list of buffered tag
bodies, or — for signal cycles — the bare string `"next_unitop"` /
`"not_next_unitop"` (the source stores a plain string there). -/
inductive TagPayload where
  | list : List String → TagPayload
  | str : String → TagPayload
deriving DecidableEq, Repr

/-- A decoded connection before tag normalization. -/
abbrev REdge := String × String × TagPayload

/-- Mutable state of the structural pass: `edges`, `cycles`, buffered `tags`. -/
structure SPSt where
  edges : List REdge
  cycles : List (String × List String)
  tags : List String
deriving Repr

/-- `re.match(r"^[%_]?\d+", t)`: the matched prefix, if any. -/
def cycMatch (t : String) : Option String :=
  match t.data with
  | '%' :: rest =>
    let ds := rest.takeWhile Char.isDigit
    if ds ≠ [] then some (String.mk ('%' :: ds)) else none
  | '_' :: rest =>
    let ds := rest.takeWhile Char.isDigit
    if ds ≠ [] then some (String.mk ('_' :: ds)) else none
  | cs =>
    let ds := cs.takeWhile Char.isDigit
    if ds ≠ [] then some (String.mk ds) else none

/-- `re.match(r"^[0-9]+$", body)`: all-digit nonempty body (HI tag filter). -/
def fullNumeric (s : String) : Bool :=
  decide (s.data ≠ []) && s.data.all Char.isDigit

/-- `re.match(r"{.*?}", t)`: tag-token test (prefix match). -/
def matchesTag (t : String) : Bool :=
  match t.data with
  | '\x7b' :: rest => tagClose rest
  | _ => false
where
  tagClose : List Char → Bool
  | [] => false
  | c :: rest => if c = '\x7d' then true else if c = '\n' then false else tagClose rest

/-- The backward `&`-resolution over `reversed(last_ops)`: `_ignore` counting
with `<&|` / `|` / `&|`, returning the first unit token at ignore level 0. -/
def backSearch : List String → Int → Option String
  | [], _ => none
  | e :: rest, ignore =>
    let ignore := if e = "<&|" then ignore - 1 else ignore
    let ignore := if e = "|" ∨ e = "&|" then ignore + 1 else ignore
    if ignore = 0 ∧ matchesUnit e then some e
    else backSearch rest ignore

/-- The `'['` branch handler inside the connection scan: scans from index
`j+1`, emitting the branch's first unit as an edge of `tok`; returns the
updated state and the index where the handler stopped. -/
def branchScan (tokens : List String) (lastIndex : Nat) (tokName : String) :
    Nat → Nat → Nat → Bool → SPSt → Option (SPSt × Nat)
  | 0, _, _, _, _ => none
  | fuel + 1, j, branches, found, st =>
    if j = lastIndex then some (st, j)
    else
      match tokens.get? (j + 1) with
      | none => none
      | some tj =>
        let (st, found) :=
          if ¬ found ∧ matchesUnit tj then
            ({ st with edges := st.edges ++ [(tokName, stripEnds tj, TagPayload.list st.tags)], tags := [] }, true)
          else (st, found)
        if tj = "[" then branchScan tokens lastIndex tokName fuel (j + 1) (branches + 1) found st
        else if branches > 1 ∧ tj = "]" then
          branchScan tokens lastIndex tokName fuel (j + 1) (branches - 1) found st
        else if branches = 1 ∧ tj = "]" then
          some ({ st with tags := [] }, j + 1)
        else if matchesTag tj then
          if ¬ fullNumeric (stripEnds tj) ∧ branches = 1 then
            branchScan tokens lastIndex tokName fuel (j + 1) branches found
              { st with tags := st.tags ++ [stripEnds tj] }
          else branchScan tokens lastIndex tokName fuel (j + 1) branches found st
        else branchScan tokens lastIndex tokName fuel (j + 1) branches found st

/-- The `'<&|'` skip loop: advance to the matching `|` or `&|` (nested
markers counted); `none` models the `IndexError` when tokens run out. -/
def skipIncoming (tokens : List String) : Nat → Nat → Int → Option Nat
  | 0, _, _ => none
  | fuel + 1, j, cont =>
    if cont = 0 then some j
    else
      match tokens.get? (j + 1) with
      | none => none
      | some tj =>
        let cont := if tj = "<&|" then cont + 1 else cont
        let cont := if tj = "|" ∨ tj = "&|" then cont - 1 else cont
        skipIncoming tokens fuel (j + 1) cont

/-- The `while not (token_idx + step) == last_index` connection scan for one
unit token at index `ti` (the `if/elif` chain in source order). -/
def connScan (tokens : List String) (lastIndex : Nat) (ti : Nat) (tokName : String) :
    Nat → Nat → Nat → SPSt → Option SPSt
  | 0, _, _, _ => none
  | fuel + 1, j, branches, st =>
    if j = lastIndex then some st
    else
      match tokens.get? (j + 1) with
      | none => none
      | some tj =>
        if branches = 0 ∧ matchesUnit tj then
          some { st with edges := st.edges ++ [(tokName, stripEnds tj, TagPayload.list st.tags)], tags := [] }
        else if branches ≠ 0 ∧ matchesUnit tj then
          connScan tokens lastIndex ti tokName fuel (j + 1) (branches - 1)
            { st with edges := st.edges ++ [(tokName, stripEnds tj, TagPayload.list st.tags)], tags := [] }
        else if (cycMatch tj).isSome then
          let cycNr := (cycMatch tj).getD ""
          connScan tokens lastIndex ti tokName fuel (j + 1) branches
            { st with cycles := st.cycles ++ [(cycNr, st.tags)], tags := [] }
        else if tj = "[" then do
          let (st, j2) ← branchScan tokens lastIndex tokName (tokens.length + 1) (j + 1) 1 false st
          connScan tokens lastIndex ti tokName fuel j2 branches st
        else if tj = "<&|" then do
          let j2 ← skipIncoming tokens (tokens.length + 1) (j + 1) 1
          connScan tokens lastIndex ti tokName fuel j2 branches st
        else if tj = "&" ∨ tj = "&|" then
          let lastOps := (tokens.take (ti + 1)).reverse
          let st :=
            match backSearch lastOps 1 with
            | some e =>
              { st with edges := st.edges ++ [(tokName, stripEnds e, TagPayload.list st.tags)], tags := [] }
            | none => st
          if tj = "&|" then some st
          else connScan tokens lastIndex ti tokName fuel (j + 1) branches st
        else if matchesTag tj then
          if ¬ fullNumeric (stripEnds tj) then
            connScan tokens lastIndex ti tokName fuel (j + 1) branches
              { st with tags := st.tags ++ [stripEnds tj] }
          else connScan tokens lastIndex ti tokName fuel (j + 1) branches st
        else if tj = "|" then some st
        else if tj = "]" then some st
        else if tj = "n|" then some st
        else connScan tokens lastIndex ti tokName fuel (j + 1) branches st

/-- The main `for token_idx, token in enumerate(self.sfiles_list)` loop. -/
def structuralPass (tokens : List String) : Option SPSt :=
  let lastIndex := tokens.length - 1
  (List.range tokens.length).foldlM
    (fun st ti =>
      match tokens.get? ti with
      | none => none
      | some tok =>
        if matchesUnit tok then
          connScan tokens lastIndex ti (stripEnds tok) (tokens.length + 1) ti 0 st
        else some st)
    ⟨[], [], []⟩

/-- `re.findall(r"\d+", s)[0]`: the first maximal digit run. -/
def firstDigitRun (s : String) : String :=
  String.mk ((s.data.dropWhile (fun c => ¬ c.isDigit)).takeWhile Char.isDigit)

/-- The cycle-resolution loop after the main scan: each recorded incoming
cycle number is paired with its `<n` / `<_n` marker; `.valueError` models the
`list.index` failure on an orphan marker, `.indexError` the `[-1]` on a
marker with no preceding unit. -/
def resolveCycles (tokens : List String) (edges0 : List REdge)
    (cycles : List (String × List String)) : Except PyErr (List REdge) :=
  cycles.foldlM
    (fun edges cyc => do
      let cycPos ←
        match tokens.indexOf? cyc.1 with
        | some i => pure i
        | none => throw PyErr.valueError
      let preOp ←
        match ((tokens.take (cycPos + 1)).filter matchesUnit).getLast? with
        | some p => pure p
        | none => throw PyErr.indexError
      if strContains cyc.1 "_" then do
        let number := firstDigitRun cyc.1
        let cycleTgt ←
          match tokens.indexOf? ("<_" ++ number) with
          | some i => pure i
          | none => throw PyErr.valueError
        match (List.range cycleTgt).findSome? (fun k =>
            match tokens.get? (cycleTgt - k) with
            | some t => if matchesUnit t then some t else none
            | none => none) with
        | some cycleOp =>
          let ewt := edges.map (fun e => (e.1, e.2.1))
          if (stripEnds preOp, stripEnds cycleOp) ∈ ewt then
            pure (edges ++ [(stripEnds preOp, stripEnds cycleOp, TagPayload.str "next_unitop")])
          else
            pure (edges ++ [(stripEnds preOp, stripEnds cycleOp, TagPayload.str "not_next_unitop")])
        | none => pure edges
      else do
        let number := firstDigitRun cyc.1
        let cycleTgt ←
          match tokens.indexOf? ("<" ++ number) with
          | some i => pure i
          | none => throw PyErr.valueError
        match (List.range (cycleTgt + 1)).findSome? (fun k =>
            match tokens.get? (cycleTgt - k) with
            | some t => if matchesUnit t then some t else none
            | none => none) with
        | some cycleOp =>
          pure (edges ++ [(stripEnds preOp, stripEnds cycleOp, TagPayload.list cyc.2)])
        | none => pure edges)
    edges0

/-! ## Tag normalization and graph assembly -/

/-- `re.search(r"(hot.*|cold.*|[0-9].*|Null)", k)`: leftmost match, group. -/
def heSearch (k : String) : Option String :=
  go k.data
where
  go : List Char → Option String
  | [] => none
  | cs@(c :: rest) =>
    if "hot".data.isPrefixOf cs ∨ "cold".data.isPrefixOf cs ∨ c.isDigit then
      some (String.mk (cs.takeWhile (fun x => x ≠ '\n')))
    else if "Null".data.isPrefixOf cs then some "Null"
    else go rest

/-- `re.search(r"(tout|tin|bout|bin)", k)`: leftmost match, group. -/
def colSearch (k : String) : Option String :=
  go k.data
where
  go : List Char → Option String
  | [] => none
  | cs@(_ :: rest) =>
    if "tout".data.isPrefixOf cs then some "tout"
    else if "tin".data.isPrefixOf cs then some "tin"
    else if "bout".data.isPrefixOf cs then some "bout"
    else if "bin".data.isPrefixOf cs then some "bin"
    else go rest

/-- `re.search(r"not_next_unitop|next_unitop", s)`. -/
def signalSearchStr (s : String) : Option String :=
  go s.data
where
  go : List Char → Option String
  | [] => none
  | cs@(_ :: rest) =>
    if "not_next_unitop".data.isPrefixOf cs then some "not_next_unitop"
    else if "next_unitop".data.isPrefixOf cs then some "next_unitop"
    else go rest

/-- The `regex_signal.search(str(old_tags))` over the payload's `str()` form:
for a list, patterns cannot span the repr punctuation, so the leftmost match
is the first element containing one. -/
def signalSearch : TagPayload → Option String
  | .str s => signalSearchStr s
  | .list l => l.findSome? signalSearchStr

/-- `for k in old_tags`: list items, or the characters of a bare string. -/
def payloadItems : TagPayload → List String
  | .list l => l
  | .str s => s.data.map (fun c => String.mk [c])

/-- The tag-partition step of `create_from_sfiles`: raw payload to
`{'he': [...], 'col': [...], 'signal': [...]}`. -/
def partitionTags (p : TagPayload) : TagDict :=
  [("he", (payloadItems p).filterMap heSearch),
   ("col", (payloadItems p).filterMap colSearch),
   ("signal", (signalSearch p).toList)]

/-- Node/edge materialization: `add_unit` for each node token, `add_stream`
for each connection with its partitioned tags. -/
def assemble (nodes : List String) (edges : List REdge) : Graph :=
  let g := nodes.foldl (fun g n => g.addNode (stripEnds n)) (Graph.mk [] [])
  edges.foldl (fun g e => g.addEdge e.1 e.2.1 (some (partitionTags e.2.2))) g

/-! ## Heat-integration split / merge -/

/-- `Flowsheet.get_he_tag(edge, edge_type)`: the unique `in`/`out` hex tag of
an edge, without its `_in`/`_out` suffix.  `ValueError` for a bad
`edge_type`, `KeyError` for missing attributes, and `RuntimeError` when the
number of matching tags differs from one. -/
def get_he_tag (e : Edge) (edgeType : String) : Except PyErr String := do
  if ¬ (edgeType = "in" ∨ edgeType = "out") then throw PyErr.valueError
  let tags ← match e.2.2 with
    | some t => pure t
    | none => throw PyErr.keyError
  let he ← match alGet tags "he" with
    | some h => pure h
    | none => throw PyErr.keyError
  let typeTags := he.filter (fun tag => strContains tag edgeType)
  match typeTags with
  | [t] => pure (splitBeforeSub t ("_" ++ edgeType))
  | _ => throw PyErr.runtimeError
where
  splitBeforeSub (t sub : String) : String :=
    String.mk (cut t.data sub.data)
  cut : List Char → List Char → List Char
  | [], _ => []
  | cs@(c :: rest), sub => if sub.isPrefixOf cs then [] else c :: cut rest sub

/-- `re.match(r".*/[A-Z]+", n)`: some `/` is followed by an uppercase letter
(node names contain no newline). -/
def matchSlashUpper (n : String) : Bool :=
  go n.data
where
  go : List Char → Bool
  | [] => false
  | '/' :: u :: rest => u.isUpper || go (u :: rest)
  | _ :: rest => go rest

/-- The inner `for out_edge in edges_out` search of `split_HI_nodes`:
`get_he_tag(out_edge, "out")` on each in order (propagating its exceptions),
first match wins; exhaustion raises `RuntimeError` (`for ... else: raise`). -/
def findMatchingOut (edgesOut : List Edge) (inTag : String) : Except PyErr Edge := do
  match edgesOut with
  | [] => throw PyErr.runtimeError
  | oe :: rest =>
    let outTag ← get_he_tag oe "out"
    if outTag = inTag then pure oe else findMatchingOut rest inTag

/-- `split_HI_nodes(self, OntoCapeNames)`: split multi-stream heat exchangers
into per-stream shadow nodes; a unit whose in/out edge counts differ is
skipped with a `warnings.warn` (collected here as the node name); tag lookup
failures (`get_he_tag`) and unmatched slots raise and abort the call.
Returns the new graph state and the warnings.  Node attributes (empty dicts
on all graphs analysed here) are not tracked. -/
def split_HI_nodes (g : Graph) (ontoCapeNames : Bool) :
    Except PyErr (Graph × List String) := do
  let hx := if ontoCapeNames then "HeatExchanger" else "hex"
  let wo := removeNotNextSignalEdges g
  let r ← wo.nodes.foldlM
    (fun (acc : List String × List String × List Edge × List String) n => do
      let (toRemove, newNodes, newEdges, warns) := acc
      if strContains n hx ∧ wo.inDegree n > 1 then
        let edgesIn := wo.inEdges n
        let edgesOut := wo.outEdges n
        if edgesIn.length ≠ edgesOut.length then
          pure (toRemove, newNodes, newEdges, warns ++ [n])
        else do
          let r2 ← edgesIn.foldlM
            (fun (acc2 : List String × List Edge) inEdge => do
              let (nn, ne) := acc2
              let inTag ← get_he_tag inEdge "in"
              let outEdge ← findMatchingOut edgesOut inTag
              let outTag ← get_he_tag outEdge "out"
              let nn := nn ++ [n ++ "/" ++ inTag]
              let ne ←
                if strContains inEdge.1 hx then do
                  let extra ← get_he_tag inEdge "out"
                  pure (ne ++ [(inEdge.1 ++ "/" ++ extra, inEdge.2.1 ++ "/" ++ inTag, inEdge.2.2)])
                else
                  pure (ne ++ [(inEdge.1, inEdge.2.1 ++ "/" ++ inTag, inEdge.2.2)])
              let ne ←
                if strContains outEdge.2.1 hx then do
                  let extra ← get_he_tag outEdge "in"
                  pure (ne ++ [(outEdge.1 ++ "/" ++ outTag, outEdge.2.1 ++ "/" ++ extra, outEdge.2.2)])
                else
                  pure (ne ++ [(outEdge.1 ++ "/" ++ outTag, outEdge.2.1, outEdge.2.2)])
              pure (nn, ne))
            (newNodes, newEdges)
          pure (toRemove ++ [n], r2.1, r2.2, warns)
      else pure acc)
    ([], [], [], [])
  let (toRemove, newNodes, newEdges, warns) := r
  let st := g.removeNodes toRemove
  let st := newNodes.foldl (fun st n => st.addNode n) st
  let st := newEdges.foldl (fun st e => st.addEdge e.1 e.2.1 e.2.2) st
  pure (st, warns)

/-- One merged-edge tag update of `merge_HI_nodes`: append `counter_in` /
`counter_out` to the edge's `he` list if absent (`KeyError` when the edge has
no tags or no `he` entry). -/
def mergeTagUpdate (e : Edge) (tag : String) : Except PyErr Edge := do
  let tags ← match e.2.2 with
    | some t => pure t
    | none => throw PyErr.keyError
  let he ← match alGet tags "he" with
    | some h => pure h
    | none => throw PyErr.keyError
  let he := if tag ∈ he then he else he ++ [tag]
  pure (e.1, e.2.1, some (alSet tags "he" he))

/-- `merge_HI_nodes(self)`: fold `hex .../k` shadow nodes back into their base
node, re-deriving `k_in` / `k_out` tags from the `/k` suffix; `.assertionError`
models the `assert len(edges) == 1` checks.  Shared-dict aliasing of the
Python attribute mutation is modelled per-iteration (the graphs decoded in
this development contain no shadow nodes, where both semantics are the
identity); node attributes are not tracked. -/
def merge_HI_nodes (g : Graph) : Except PyErr Graph := do
  let relabel := g.nodes.filterMap (fun n =>
    if (strContains n "hex" ∨ strContains n "HeatExchanger") ∧ strContains n "/"
        ∧ ¬ matchSlashUpper n then
      some (n, splitSlashHead n)
    else none)
  let toRemove := relabel.map Prod.fst
  let r ← relabel.foldlM
    (fun (acc : List Edge × List String) p => do
      let (newEdges, newNodes) := acc
      let (n1, n2) := p
      let counter := String.mk ((splitChars (fun c => c == '/') n1.data).getD 1 [])
      let edgesIn := g.inEdges n1
      let edgeIn ← match edgesIn with
        | [e] => pure e
        | _ => throw PyErr.assertionError
      let edgeIn ← mergeTagUpdate edgeIn (counter ++ "_in")
      let edgesOut := g.outEdges n1
      let edgeOut ← match edgesOut with
        | [e] => pure e
        | _ => throw PyErr.assertionError
      let edgeOut ← mergeTagUpdate edgeOut (counter ++ "_out")
      let newNodes := if n2 ∈ newNodes then newNodes else newNodes ++ [n2]
      let srcIsHex := (strContains edgeIn.1 "hex" ∨ strContains edgeIn.1 "HeatExchanger")
        ∧ strContains edgeIn.1 "/" ∧ ¬ matchSlashUpper edgeIn.1
      let newEdges := newEdges ++
        [if srcIsHex then (splitSlashHead edgeIn.1, n2, edgeIn.2.2)
         else (edgeIn.1, n2, edgeIn.2.2)]
      let tgtIsHex := (strContains edgeOut.2.1 "hex" ∨ strContains edgeOut.2.1 "HeatExchanger")
        ∧ strContains edgeOut.2.1 "/" ∧ ¬ matchSlashUpper edgeOut.2.1
      let newEdges := newEdges ++
        [if tgtIsHex then (n2, splitSlashHead edgeOut.2.1, edgeOut.2.2)
         else (n2, edgeOut.2.1, edgeOut.2.2)]
      pure (newEdges, newNodes))
    ([], [])
  let (newEdges, newNodes) := r
  let st := g.removeNodes toRemove
  let st := newNodes.foldl (fun st n => st.addNode n) st
  let st := newEdges.foldl (fun st e => st.addEdge e.1 e.2.1 e.2.2) st
  pure st

/-- `create_from_sfiles(sfiles_in, overwrite_nx=True, merge_HI_nodes)`: the
decoder pipeline on a fresh graph — empty-input check (`ValueError`),
tokenize, renumber, structural pass, cycle resolution, assembly, optional
heat-integration merge.  There is no bracket- or marker-matching validation
anywhere in this pipeline. -/
def create_from_sfiles (sfilesIn : String) (mergeHI : Bool) : Except PyErr Graph := do
  if sfilesIn = "" then throw PyErr.valueError
  let tokens0 := SFILES_tokenize sfilesIn
  let (tokens, nodes) := renumber_generalized_SFILES tokens0
  let sp ← match structuralPass tokens with
    | some sp => pure sp
    | none => throw PyErr.indexError
  let edges ← resolveCycles tokens sp.edges sp.cycles
  let g := assemble nodes edges
  if mergeHI then merge_HI_nodes g else pure g

/-! ## Concrete instances used by the claim theorems -/

/-- The `add_stream` default tag dict `{'he': [], 'col': []}` (no `signal`
key), as attached by the graph-construction API. -/
def tagsHC : TagDict := [("he", []), ("col", [])]

/-- The tag dict `{'he': [], 'col': [], 'signal': []}` produced for untagged
edges by the decoder's tag-partition step. -/
def decodedTags : TagDict := [("he", []), ("col", []), ("signal", [])]

/-- The spec's 3-node chain `raw-1 -> pump-1 -> product-1`, built through the
graph-construction API (`add_unit` / `add_stream` with default tags). -/
def chainG : Graph :=
  (((Graph.mk [] []).addNode "raw-1").addNode "pump-1").addNode "product-1"
    |>.addEdge "raw-1" "pump-1" (some tagsHC)
    |>.addEdge "pump-1" "product-1" (some tagsHC)

/-- A graph producing a Morgan tie between an output node and a signal-named
node: `v-1 -> prod-1`, `v-1 -> C-1` (the two sinks are structural twins). -/
def starG : Graph :=
  ((Graph.mk [] []).addNode "v-1" |>.addNode "prod-1" |>.addNode "C-1")
    |>.addEdge "v-1" "prod-1" (some tagsHC)
    |>.addEdge "v-1" "C-1" (some tagsHC)

/-- An 8-node graph on which the Morgan loop's distinct-value counts run
`4,4,4,5,5,6,6,6`: two strict increases interleave with the non-increases, so
the cumulative counter reaches 5 at iteration 8 while no 5 *consecutive*
non-increases have occurred. -/
def g8 : Graph :=
  (Graph.mk ["n0", "n1", "n2", "n3", "n4", "n5", "n6", "n7"] [])
    |>.addEdge "n0" "n4" none |>.addEdge "n0" "n6" none |>.addEdge "n1" "n2" none
    |>.addEdge "n1" "n5" none |>.addEdge "n2" "n3" none |>.addEdge "n2" "n7" none
    |>.addEdge "n3" "n6" none |>.addEdge "n4" "n5" none |>.addEdge "n4" "n7" none
    |>.addEdge "n5" "n6" none

/-- An edge tag dict with the given `he` list. -/
def heT (l : List String) : Option TagDict := some [("he", l), ("col", [])]

/-- A multi-stream heat exchanger with two in-edges but one out-edge
(`len(edges_in) != len(edges_out)`): the splitter's skip-with-warning case. -/
def gSkip : Graph :=
  ((Graph.mk [] []).addNode "a-1" |>.addNode "b-1" |>.addNode "hex-1" |>.addNode "c-1")
    |>.addEdge "a-1" "hex-1" (heT ["1_in"])
    |>.addEdge "b-1" "hex-1" (heT ["2_in"])
    |>.addEdge "hex-1" "c-1" (heT ["1_out"])

/-- A multi-stream heat exchanger with matching edge counts but a missing
`in` slot tag on the first in-edge: `get_he_tag` raises. -/
def gMissing : Graph :=
  ((Graph.mk [] []).addNode "a-1" |>.addNode "b-1" |>.addNode "hex-1"
      |>.addNode "c-1" |>.addNode "d-1")
    |>.addEdge "a-1" "hex-1" (heT [])
    |>.addEdge "b-1" "hex-1" (heT ["2_in"])
    |>.addEdge "hex-1" "c-1" (heT ["1_out"])
    |>.addEdge "hex-1" "d-1" (heT ["2_out"])

/-- A multi-stream heat exchanger with matching edge counts and exactly one
slot tag on every edge, but whose in slot `2` has no matching out tag (the
out-edges carry `1_out` and `3_out`): every `get_he_tag` lookup succeeds and
the pairing loop itself raises (`for ... else: raise RuntimeError`). -/
def gNoMatch : Graph :=
  ((Graph.mk [] []).addNode "a-1" |>.addNode "b-1" |>.addNode "hex-1"
      |>.addNode "c-1" |>.addNode "d-1")
    |>.addEdge "a-1" "hex-1" (heT ["1_in"])
    |>.addEdge "b-1" "hex-1" (heT ["2_in"])
    |>.addEdge "hex-1" "c-1" (heT ["1_out"])
    |>.addEdge "hex-1" "d-1" (heT ["3_out"])

/-- A multi-stream heat exchanger whose two in-edges carry the SAME slot tag
`1_in` (each edge individually well-formed): both pair with the single
`1_out` out-edge, so the split proceeds silently — no exception, no warning —
and the unmatched `2_out` edge to `d-1` disappears from the result. -/
def gDup : Graph :=
  ((Graph.mk [] []).addNode "a-1" |>.addNode "b-1" |>.addNode "hex-1"
      |>.addNode "c-1" |>.addNode "d-1")
    |>.addEdge "a-1" "hex-1" (heT ["1_in"])
    |>.addEdge "b-1" "hex-1" (heT ["1_in"])
    |>.addEdge "hex-1" "c-1" (heT ["1_out"])
    |>.addEdge "hex-1" "d-1" (heT ["2_out"])

/-- A two-node `sfiles_part` context for exercising `insert_cycle` directly. -/
def c8Part : List SElem := [.s "(a-1)", .s "(b-1)"]

/-- Zero position setoffs for the two nodes of `c8Part`. -/
def c8Maps : List (String × Nat) := [("a-1", 0), ("b-1", 0)]

/-- Boolean success test for an `Except` result. -/
def exceptOk {ε α : Type} : Except ε α → Bool
  | .ok _ => true
  | .error _ => false

/-- One step of the distinct-count bookkeeping of the Morgan loop: carry the
running maximum `unique_values_temp` and the count of iterations whose
distinct count failed to increase it. -/
def nonIncStep (acc : Nat × Nat) (u : Nat) : Nat × Nat :=
  if u > acc.1 then (u, acc.2) else (acc.1, acc.2 + 1)

/-- Running maximum and cumulative non-increase count of a distinct-count
sequence (the quantity the source accumulates in `counter`). -/
def nonIncFold (useq : List Nat) : Nat × Nat := useq.foldl nonIncStep (0, 0)

/-- Per-iteration non-increase flags of a distinct-count sequence. -/
def nonIncFlags (useq : List Nat) : List Bool :=
  (useq.foldl
    (fun (acc : Nat × List Bool) u =>
      if u > acc.1 then (u, acc.2 ++ [false]) else (acc.1, acc.2 ++ [true]))
    (0, [])).2

/-- Whether the sequence has at least `k` entries and its last `k` entries
all failed to increase the running maximum — the claim's "the distinct count
failed to increase for `k` consecutive iterations". -/
def lastKNonInc (useq : List Nat) (k : Nat) : Bool :=
  decide (k ≤ useq.length) && ((nonIncFlags useq).reverse.take k).all id

/-- The result record of encoding the 3-node chain (tokens, string, and the
mutated graph argument), used to discharge the hypotheses of the C10 theorem
at a concrete input. -/
def chainResult : EncodeResult :=
  ⟨["(raw)", "(pump)", "(product)"], "(raw)(pump)(product)",
   ⟨["raw-1", "pump-1", "product-1", "virtual"],
    [("raw-1", "pump-1", some tagsHC), ("pump-1", "product-1", some tagsHC),
     ("virtual", "raw-1", none)]⟩⟩

/-! ## Model of the `convert_to_sfiles` call arity (claim C1) -/

/-- Number of parameters in the definition
`def nx_to_SFILES(flowsheet, version, remove_hex_tags)` (nx_to_sfiles.py,
line 17). -/
def nx_to_SFILES_paramCount : Nat := 3

/-- Number of positional arguments in the call
`nx_to_SFILES(self.flowsheet_SFILES_names, version, remove_hex_tags,
canonical)` made by `Flowsheet.convert_to_sfiles` (flowsheet.py, line 334). -/
def convert_to_sfiles_encode_argCount : Nat := 4

/-- Python call semantics for the encode step of `convert_to_sfiles`:
calling a function whose parameter count differs from the number of
positional arguments raises `TypeError` before the callee runs. -/
def convert_to_sfiles_encode_call : Except PyErr Unit :=
  if convert_to_sfiles_encode_argCount = nx_to_SFILES_paramCount then Except.ok ()
  else Except.error PyErr.typeError

/-! ## Claim theorems -/

/-- C1: every encode through the public API (`convert_to_sfiles`, the only
caller of `nx_to_SFILES`, and the entry point the round-trip contract
`decode(encode(G, canonical=true))` refers to) raises `TypeError`: the call
passes four positional arguments to the three-parameter `nx_to_SFILES`, so
the round trip cannot even start.  (The repository's own tests call
`convert_to_sfiles()` and would hit the same `TypeError`.) -/
theorem C1_convert_to_sfiles_arity :
    convert_to_sfiles_encode_call = Except.error PyErr.typeError ∧
    convert_to_sfiles_encode_argCount ≠ nx_to_SFILES_paramCount := by
  constructor
  · rfl
  · decide

/-- C2 (counterexample): decoding the spec's malformed example `"(a)[(b)"`
does not raise — `create_from_sfiles` returns a graph normally, so the claim
"decoding raises StructuralError and returns no partial graph" is false on
this input. -/
theorem C2_counterexample :
    exceptOk (create_from_sfiles "(a)[(b)" true) = true := by rfl

/-- C2 (amended): decoding `"(a)[(b)"` silently ignores the unmatched bracket
and returns the 2-node graph with the single edge `a-1 -> b-1`; no
`StructuralError` exists anywhere in the code.  An orphan *incoming* cycle
number does abort, but with an unhandled `ValueError` from `list.index`, as
on `"(a)(b)1"`. -/
theorem C2_amended :
    create_from_sfiles "(a)[(b)" true
      = Except.ok ⟨["a-1", "b-1"], [("a-1", "b-1", some decodedTags)]⟩ ∧
    create_from_sfiles "(a)(b)1" true = Except.error PyErr.valueError := by
  exact ⟨rfl, rfl⟩

/-- C3 (counterexample): `nx_to_SFILES` is not pure in its graph argument —
encoding the 3-node chain leaves the caller's graph changed (a `virtual` node
and an edge from it have been added and never removed). -/
theorem C3_counterexample :
    (nx_to_SFILES chainG "v1" false 100).map EncodeResult.finalGraph ≠ some chainG ∧
    (nx_to_SFILES chainG "v1" false 100).isSome = true := by
  constructor
  · decide
  · rfl

/-- C3 (amended): the encoder mutates the caller's graph object: on the
3-node chain, the graph afterwards equals the input plus the virtual root
node and the untagged edge `virtual -> raw-1` (callers must pass a copy to
protect their state, as `convert_to_sfiles` does with
`self.flowsheet_SFILES_names`). -/
theorem C3_mutates_argument :
    (nx_to_SFILES chainG "v1" false 100).map EncodeResult.finalGraph
      = some ⟨chainG.nodes ++ ["virtual"], chainG.edges ++ [("virtual", "raw-1", none)]⟩ := by
  rfl

/-- C4 (counterexample): in `starG` the nodes `prod-1` (an output node) and
`C-1` (a signal-named node, which under the claim's classes is "other") tie
after Morgan refinement; the claim requires the output node to rank before
all non-output/non-input nodes, but `calc_graph_invariant` ranks the signal
node `C-1` first. -/
theorem C4_counterexample :
    calc_graph_invariant starG = [("C-1", 1), ("prod-1", 2), ("v-1", 3)] ∧
    (alGet (calc_graph_invariant starG) "C-1").getD 0 <
      (alGet (calc_graph_invariant starG) "prod-1").getD 0 := by
  exact ⟨rfl, by decide⟩

/-- C6 (counterexample): a multi-stream heat exchanger whose in/out edges
cannot be paired because a slot tag is missing does NOT produce a skip plus
warning — `split_HI_nodes` aborts the call with the `RuntimeError` raised by
`get_he_tag`. -/
theorem C6_counterexample :
    split_HI_nodes gMissing false = Except.error PyErr.runtimeError := by rfl

/-- C6 (amended): only the in/out edge-count mismatch is handled by skipping
the unit and recording a warning (the graph is returned unchanged).  An edge
whose `he` tag list does not hold exactly one `in` (resp. `out`) slot tag
makes `get_he_tag` raise `RuntimeError` (shown for zero and for two in-tags
on one edge); an in slot whose out counterpart appears on no out-edge makes
the pairing loop of `split_HI_nodes` itself raise `RuntimeError` — on
`gNoMatch` every per-edge `get_he_tag` lookup succeeds and the exhausted
out-edge search is what raises.  The same slot tag on more than one edge is
not detected at all: on `gDup` both `1_in` in-edges pair with the single
`1_out` out-edge and the call returns silently, with no warning, the
unmatched `2_out` edge dropped. -/
theorem C6_amended :
    split_HI_nodes gSkip false = Except.ok (gSkip, ["hex-1"]) ∧
    get_he_tag ("a-1", "hex-1", heT []) "in" = Except.error PyErr.runtimeError ∧
    get_he_tag ("a-1", "hex-1", heT ["1_in", "1_in"]) "in"
      = Except.error PyErr.runtimeError ∧
    split_HI_nodes gNoMatch false = Except.error PyErr.runtimeError ∧
    (gNoMatch.inEdges "hex-1").map (fun e => get_he_tag e "in")
      = [Except.ok "1", Except.ok "2"] ∧
    (gNoMatch.outEdges "hex-1").map (fun e => get_he_tag e "out")
      = [Except.ok "1", Except.ok "3"] ∧
    findMatchingOut (gNoMatch.outEdges "hex-1") "2"
      = Except.error PyErr.runtimeError ∧
    split_HI_nodes gDup false
      = Except.ok (⟨["a-1", "b-1", "c-1", "d-1", "hex-1/1"],
          [("a-1", "hex-1/1", heT ["1_in"]),
           ("hex-1/1", "c-1", heT ["1_out"]),
           ("b-1", "hex-1/1", heT ["1_in"])]⟩, []) := by
  exact ⟨rfl, rfl, rfl, rfl, rfl, rfl, rfl, rfl⟩

/-- C7 (counterexample): lexing an input containing the unclassifiable
substring `xyz` raises nothing — the tokenizer returns normally with the
recognizable tokens only, so "lexing raises a GrammarError" is false. -/
theorem C7_counterexample :
    SFILES_tokenize "xyz(a)" = ["(a)"] := by rfl

/-- C9 (counterexample): encoding the 3-node chain does not return
`"(raw-1)(pump-1)(product-1)"` — the encoder always generalizes, returning
`"(raw)(pump)(product)"`. -/
theorem C9_counterexample :
    (nx_to_SFILES chainG "v1" false 100).map EncodeResult.str
      = some "(raw)(pump)(product)" ∧
    ("(raw)(pump)(product)" : String) ≠ "(raw-1)(pump-1)(product-1)" := by
  exact ⟨rfl, by decide⟩

/-- C9 (amended): the chain encodes (in both versions) to the generalized
string `"(raw)(pump)(product)"`, and decoding that string reproduces the same
three nodes and two edges (each decoded edge carries the tag dict with an
additional empty `signal` entry). -/
theorem C9_chain_roundtrip :
    (nx_to_SFILES chainG "v1" false 100).map EncodeResult.str
      = some "(raw)(pump)(product)" ∧
    (nx_to_SFILES chainG "v2" true 100).map EncodeResult.str
      = some "(raw)(pump)(product)" ∧
    create_from_sfiles "(raw)(pump)(product)" true
      = Except.ok ⟨["raw-1", "pump-1", "product-1"],
          [("raw-1", "pump-1", some decodedTags),
           ("pump-1", "product-1", some decodedTags)]⟩ := by
  exact ⟨rfl, rfl, rfl⟩

/-- Invariant of the Morgan `while` loop: `fuel` mirrors `100 - maxIter`,
`counter` is the cumulative non-increase count of the recorded sequence and
`uvt` its running maximum.  On exit, the loop has run at most 100 iterations
(one distinct-count observation per iteration), the cumulative non-increase
count never exceeds 5, and an exit before the cap means it is exactly 5. -/
theorem morganLoop_spec (A : List (List Nat)) :
    ∀ (fuel counter maxIter : Nat) (m : List Nat) (uvt : Nat)
      (dict : List Nat) (useqRev : List Nat),
      fuel + maxIter = 100 → counter ≤ 5 → useqRev.length = maxIter →
      useqRev.reverse.foldl nonIncStep (0, 0) = (uvt, counter) →
      (morganLoop A fuel counter maxIter m uvt dict useqRev).iters ≤ 100 ∧
      (morganLoop A fuel counter maxIter m uvt dict useqRev).useq.length =
        (morganLoop A fuel counter maxIter m uvt dict useqRev).iters ∧
      ((morganLoop A fuel counter maxIter m uvt dict useqRev).useq.foldl
          nonIncStep (0, 0)).2 ≤ 5 ∧
      ((morganLoop A fuel counter maxIter m uvt dict useqRev).iters = 100 ∨
        ((morganLoop A fuel counter maxIter m uvt dict useqRev).useq.foldl
            nonIncStep (0, 0)).2 = 5) := by
  intro fuel
  induction fuel with
  | zero =>
    intro counter maxIter m uvt dict useqRev h100 hc hlen hfold
    have hmi : maxIter = 100 := by omega
    simp only [morganLoop, hfold]
    refine ⟨by omega, by simpa using hlen, by simpa using hc, Or.inl hmi⟩
  | succ f ih =>
    intro counter maxIter m uvt dict useqRev h100 hc hlen hfold
    by_cases hg : counter < 5 ∧ maxIter < 100
    · rw [show f + 1 = f + 1 from rfl]
      simp only [morganLoop, if_pos hg]
      by_cases hu : uniqueCount (vecMat m A) > uvt
      · rw [if_pos hu]
        apply ih
        · omega
        · exact hc
        · simpa using hlen
        · have : (uniqueCount (vecMat m A) :: useqRev).reverse
              = useqRev.reverse ++ [uniqueCount (vecMat m A)] := by simp
          rw [this, List.foldl_append, hfold]
          simp [nonIncStep, hu]
      · rw [if_neg hu]
        apply ih
        · omega
        · omega
        · simpa using hlen
        · have : (uniqueCount (vecMat m A) :: useqRev).reverse
              = useqRev.reverse ++ [uniqueCount (vecMat m A)] := by simp
          rw [this, List.foldl_append, hfold]
          simp [nonIncStep, hu]
    · simp only [morganLoop, if_neg hg, hfold]
      have hc5 : counter = 5 := by omega
      refine ⟨by omega, by simpa using hlen, by simpa using hc, Or.inr (by simpa using hc5)⟩

/-- C5 (counterexample): on the 8-node graph `g8` the Morgan loop stops at
iteration 8 — before the 100-iteration cap — although the distinct-value
count had NOT failed to increase for 5 consecutive iterations (the recorded
counts are 4,4,4,5,5,6,6,6: two strict increases interleave, and the final
run of non-increases has length 2).  The non-increase counter is cumulative,
never reset, contradicting the claim's stopping rule. -/
theorem C5_counterexample :
    (morganRun g8).iters = 8 ∧ (8 : Nat) < 100 ∧
    (morganRun g8).useq = [4, 4, 4, 5, 5, 6, 6, 6] ∧
    lastKNonInc (morganRun g8).useq 5 = false := by
  refine ⟨rfl, by omega, rfl, by rfl⟩

/-- C5 (amended): the refinement loop terminates on every input graph — it
runs at most 100 iterations (at most 100 in-loop matrix multiplications per
component, one distinct-count observation each), and whenever it stops before
the cap the number of iterations whose distinct-value count failed to
increase the running maximum — counted cumulatively over the whole run, not
consecutively — is exactly 5 (and it never exceeds 5). -/
theorem C5_morgan_terminates (g : Graph) :
    (morganRun g).iters ≤ 100 ∧
    (morganRun g).useq.length = (morganRun g).iters ∧
    (nonIncFold (morganRun g).useq).2 ≤ 5 ∧
    ((morganRun g).iters = 100 ∨ (nonIncFold (morganRun g).useq).2 = 5) := by
  have h := morganLoop_spec (adjacencyMatrix g) 100 0 0
    (vecMat (matColSums (adjacencyMatrix g)) (adjacencyMatrix g)) 0 [] []
    (by omega) (by omega) rfl rfl
  simpa only [morganRun, nonIncFold] using h

/-- Equality test on two string elements reduces to string equality. -/
theorem beq_s_s (a b : String) : (SElem.s a == SElem.s b) = (a == b) := rfl

/-- C8 (counterexample): when the counter passes 9, the outgoing cycle marker
is written `<10`, not `<%10` — only the incoming member gets the `%` escape.
(`insert_cycle` with `nr_pre_visited = 9` on a two-node context: the pair
spliced is `<10` after `a-1` and `%10` after `b-1`; `<%10` appears nowhere.) -/
theorem C8_counterexample :
    insert_cycle 10 9 c8Part [] [] c8Maps c8Maps "a-1" "b-1" false false false
      = some (10, [(("b-1", "a-1"), SpecVal.num 10)],
          [.s "(a-1)", .s "<10", .s "(b-1)", .s "%10"], [],
          [("a-1", 1), ("b-1", 1)], [("a-1", 0), ("b-1", 1)]) ∧
    ¬ "<%10" ∈ flattenL [.s "(a-1)", .s "<10", .s "(b-1)", .s "%10"] := by
  exact ⟨rfl, by decide⟩

/-- C8 (amended): for EVERY previous counter value `nr` the cycle counter
increments by exactly one per recorded cycle (strictly increasing), the
outgoing marker is the unescaped `<n` for `n = nr + 1`, and the matching
incoming marker is the escaped `%n` when `n > 9` and the plain `n` when
`n ≤ 9`; the full output equality shows `<%n` is never among the spliced
tokens in either regime. -/
theorem C8_markers (nr : Nat) :
    insert_cycle 10 nr c8Part [] [] c8Maps c8Maps "b-1" "a-1" false false false
      = some (nr + 1, [(("a-1", "b-1"), SpecVal.num (nr + 1))],
          [.s "(a-1)", .s ((if nr + 1 > 9 then "%" else "") ++ toString (nr + 1)),
           .s "(b-1)", .s ("<" ++ toString (nr + 1))],
          [], [("a-1", 1), ("b-1", 1)], [("a-1", 1), ("b-1", 0)]) ∧
    nr < nr + 1 := by
  refine ⟨?_, by omega⟩
  by_cases h10 : nr + 1 > 9
  · simp [insert_cycle, position_finder, find_nested_indices, findSubIdx, bumpLast,
      alGet, alSet, insert_element, listInsertPy, c8Part, c8Maps, h10, beq_s_s,
      List.findIdx?_cons, seSet]
  · simp [insert_cycle, position_finder, find_nested_indices, findSubIdx, bumpLast,
      alGet, alSet, insert_element, listInsertPy, c8Part, c8Maps, h10, beq_s_s,
      List.findIdx?_cons, seSet]

/-! ## Tokenizer consumption lemmas (claim C7) -/

/-- A `takeWhile` prefix followed by the drop of its length restores the list. -/
theorem takeWhile_append_drop_self {α : Type} (p : α → Bool) (l : List α) :
    l.takeWhile p ++ l.drop (l.takeWhile p).length = l := by
  obtain ⟨t, ht⟩ := l.takeWhile_prefix (p := p)
  have h2 := List.drop_left (l.takeWhile p) t
  rw [ht] at h2
  rw [h2, ht]

/-- Unfolding specification of `lazyClose.go`: a successful lazy match splits
the input as body ++ close ++ rest. -/
theorem lazyClose_go_spec (close : Char) :
    ∀ (cs accRev body rest2 : List Char),
      lazyClose.go close cs accRev = some (body, rest2) →
      accRev.reverse ++ cs = body ++ close :: rest2 := by
  intro cs
  induction cs with
  | nil => intro accRev body rest2 hgo; simp [lazyClose.go] at hgo
  | cons c rest ih =>
    intro accRev body rest2 hgo
    simp only [lazyClose.go] at hgo
    by_cases h1 : c = close ∧ accRev ≠ []
    · rw [if_pos h1] at hgo
      simp only [Option.some.injEq, Prod.mk.injEq] at hgo
      obtain ⟨hb, hr⟩ := hgo
      subst hb; subst hr
      rw [h1.1]
    · rw [if_neg h1] at hgo
      by_cases h2 : c = '\n'
      · rw [if_pos h2] at hgo; cases hgo
      · rw [if_neg h2] at hgo
        have := ih (c :: accRev) body rest2 hgo
        simpa using this

/-- Specification of `lazyClose`. -/
theorem lazyClose_spec (cs : List Char) (close : Char) (body rest2 : List Char)
    (h : lazyClose cs close = some (body, rest2)) :
    cs = body ++ close :: rest2 := by
  have := lazyClose_go_spec close cs [] body rest2 h
  simpa using this

/-- A successful `lexTry` consumes exactly the token's characters. -/
theorem lexTry_consumes (prev : Option Char) (c : Char) (rest : List Char)
    (tok : String) (rest2 : List Char) (lc : Char)
    (h : lexTry prev c rest = some (tok, rest2, lc)) :
    tok.data ++ rest2 = c :: rest := by
  unfold lexTry at h
  by_cases h1 : c = '('
  · rw [if_pos h1] at h
    cases hl : lazyClose rest ')' with
    | none => rw [hl] at h; cases h
    | some br =>
      obtain ⟨body, r2⟩ := br
      rw [hl] at h
      simp only [Option.some.injEq, Prod.mk.injEq] at h
      obtain ⟨ht, hr, -⟩ := h
      subst ht; subst hr
      have := lazyClose_spec rest ')' body r2 hl
      rw [h1, this]
      show ('(' :: (body ++ [')'])) ++ r2 = _
      simp
  · rw [if_neg h1] at h
    by_cases h2 : c = '\x7b'
    · rw [if_pos h2] at h
      cases hl : lazyClose rest '\x7d' with
      | none => rw [hl] at h; cases h
      | some br =>
        obtain ⟨body, r2⟩ := br
        rw [hl] at h
        simp only [Option.some.injEq, Prod.mk.injEq] at h
        obtain ⟨ht, hr, -⟩ := h
        subst ht; subst hr
        have := lazyClose_spec rest '\x7d' body r2 hl
        rw [h2, this]
        show ('\x7b' :: (body ++ ['\x7d'])) ++ r2 = _
        simp
    · rw [if_neg h2] at h
      by_cases h3 : c = '<' ∨ c = '%' ∨ c = '_'
      · rw [if_pos h3] at h
        by_cases h4 : (((c :: rest).drop
            ((c :: rest).takeWhile (fun x => x = '<' ∨ x = '%' ∨ x = '_')).length).takeWhile
              Char.isDigit) ≠ []
        · rw [if_pos h4] at h
          simp only [Option.some.injEq, Prod.mk.injEq] at h
          obtain ⟨ht, hr, -⟩ := h
          subst ht; subst hr
          show (((c :: rest).takeWhile (fun x => x = '<' ∨ x = '%' ∨ x = '_')) ++
            (((c :: rest).drop ((c :: rest).takeWhile
              (fun x => x = '<' ∨ x = '%' ∨ x = '_')).length).takeWhile Char.isDigit)) ++ _ = _
          rw [List.append_assoc, takeWhile_append_drop_self Char.isDigit]
          exact takeWhile_append_drop_self _ _
        · rw [if_neg h4] at h
          by_cases h5 : c = '<' ∧ rest.take 2 = ['&', '|']
          · rw [if_pos h5] at h
            simp only [Option.some.injEq, Prod.mk.injEq] at h
            obtain ⟨ht, hr, -⟩ := h
            subst ht; subst hr
            show '<' :: '&' :: '|' :: rest.drop 2 = _
            rw [h5.1]
            have := List.take_append_drop 2 rest
            rw [h5.2] at this
            rw [← this]
            rfl
          · rw [if_neg h5] at h; cases h
      · rw [if_neg h3] at h
        by_cases h6 : c = ']'
        · rw [if_pos h6] at h
          simp only [Option.some.injEq, Prod.mk.injEq] at h
          obtain ⟨ht, hr, -⟩ := h
          subst ht; subst hr; rw [h6]; rfl
        · rw [if_neg h6] at h
          by_cases h7 : c = '['
          · rw [if_pos h7] at h
            simp only [Option.some.injEq, Prod.mk.injEq] at h
            obtain ⟨ht, hr, -⟩ := h
            subst ht; subst hr; rw [h7]; rfl
          · rw [if_neg h7] at h
            by_cases h8 : c = '&'
            · rw [if_pos h8] at h
              by_cases h9 : rest.headD ' ' = '|'
              · rw [if_pos h9] at h
                by_cases h10 : prev = some '<'
                · rw [if_pos h10] at h; cases h
                · rw [if_neg h10] at h
                  simp only [Option.some.injEq, Prod.mk.injEq] at h
                  obtain ⟨ht, hr, -⟩ := h
                  subst ht; subst hr
                  cases rest with
                  | nil => simp at h9
                  | cons r0 rs =>
                    simp at h9
                    subst h9
                    rw [h8]; rfl
              · rw [if_neg h9] at h
                simp only [Option.some.injEq, Prod.mk.injEq] at h
                obtain ⟨ht, hr, -⟩ := h
                subst ht; subst hr; rw [h8]; rfl
            · rw [if_neg h8] at h
              by_cases h11 : c = 'n'
              · rw [if_pos h11] at h
                by_cases h12 : rest.headD ' ' = '|'
                · rw [if_pos h12] at h
                  simp only [Option.some.injEq, Prod.mk.injEq] at h
                  obtain ⟨ht, hr, -⟩ := h
                  subst ht; subst hr
                  cases rest with
                  | nil => simp at h12
                  | cons r0 rs =>
                    simp at h12
                    subst h12
                    rw [h11]; rfl
                · rw [if_neg h12] at h; cases h
              · rw [if_neg h11] at h
                by_cases h13 : c = '|'
                · rw [if_pos h13] at h
                  by_cases h14 : prev = some '&' ∨ prev = some 'n'
                  · rw [if_pos h14] at h; cases h
                  · rw [if_neg h14] at h
                    simp only [Option.some.injEq, Prod.mk.injEq] at h
                    obtain ⟨ht, hr, -⟩ := h
                    subst ht; subst hr; rw [h13]; rfl
                · rw [if_neg h13] at h
                  by_cases h15 : c.isDigit
                  · rw [if_pos h15] at h
                    simp only [Option.some.injEq, Prod.mk.injEq] at h
                    obtain ⟨ht, hr, -⟩ := h
                    subst ht; subst hr; rfl
                  · rw [if_neg h15] at h; cases h

/-- The token scan consumes characters in order: the emitted tokens
concatenate to a sublist of the remaining input. -/
theorem lexLoop_sublist : ∀ (fuel : Nat) (prev : Option Char) (cs : List Char),
    ((lexLoop fuel prev cs).map String.data).flatten.Sublist cs := by
  intro fuel
  induction fuel with
  | zero => intro prev cs; simp [lexLoop]
  | succ f ih =>
    intro prev cs
    cases cs with
    | nil => simp [lexLoop]
    | cons c rest =>
      rw [lexLoop]
      cases hl : lexTry prev c rest with
      | none =>
        simp only []
        exact (ih (some c) rest).trans (List.sublist_cons_self c rest)
      | some tr =>
        obtain ⟨tok, rest2, lc⟩ := tr
        simp only [List.map_cons, List.flatten_cons]
        have hc := lexTry_consumes prev c rest tok rest2 lc hl
        rw [← hc]
        exact (List.append_sublist_append_left tok.data).mpr (ih (some lc) rest2)

/-- C7 (amended): the tokenizer is total and silently drops unrecognized
substrings: the concatenation of the returned tokens is always an in-order
selection (sublist) of the input's characters — characters that fit no
alternative of the grammar are skipped, and no error of any kind is raised
(e.g. lexing `"xyz(a)"` yields just `["(a)"]`). -/
theorem C7_tokens_sublist (s : String) :
    (((SFILES_tokenize s).map String.data).flatten).Sublist s.data :=
  lexLoop_sublist (s.data.length + 1) none s.data


/-- A token produced by `generalize_SFILES` that has Unit shape `(...)`
contains no dash: the generalization step keeps only the characters of the
node name strictly before the first `-` and closes the parenthesis. -/
theorem generalize_no_dash (l : List String) (s : String)
    (hs : s ∈ generalize_SFILES l) (hm : matchesUnit s = true) :
    ¬ '-' ∈ s.data := by
  intro hmem
  simp only [generalize_SFILES, List.mem_map] at hs
  obtain ⟨a, -, ha⟩ := hs
  by_cases hma : matchesUnit a = true
  · rw [if_pos hma] at ha
    subst ha
    have hmem2 : '-' ∈ (a.data.takeWhile (fun c => c ≠ '-')) ++ [')'] := by
      simpa [String.data_append] using hmem
    rcases List.mem_append.mp hmem2 with h | h
    · have := List.mem_takeWhile_imp h
      simp at this
    · simp at h
  · rw [if_neg hma] at ha
    subst ha
    exact absurd hm (by simp [hma])

/-- Whenever `nx_to_SFILES` returns a result, its token list is the image of
`generalize_SFILES` (both the `v1` and the `v2` branch end in
`generalize_SFILES`), and the returned string is the concatenation of the
returned tokens. -/
theorem tokens_generalized2 (g : Graph) (version : String) (rht : Bool) (fuel : Nat)
    (r : EncodeResult) (h : nx_to_SFILES g version rht fuel = some r) :
    ∃ x, r.tokens = generalize_SFILES x ∧ r.str = String.join r.tokens := by
  simp only [nx_to_SFILES, bind, pure] at h
  rw [Option.bind_eq_some] at h
  obtain ⟨gv, hg, h⟩ := h
  rw [Option.bind_eq_some] at h
  obtain ⟨res, hd, h⟩ := h
  split at h
  all_goals (simp only [Option.some.injEq] at h; exact ⟨_, by rw [← h], by rw [← h]⟩)

/-- C10: for every input graph, every version string, every `remove_hex_tags`
flag and every fuel on which the encoder terminates, the returned result is in
generalized form: the token list is the image of `generalize_SFILES` (so every
Unit token `(name)` has had everything from the first `-` of `name-<number>`
stripped, hence contains no `-` at all), and the returned string is exactly the
concatenation of those generalized tokens. -/
theorem C10_generalized (g : Graph) (version : String) (rht : Bool) (fuel : Nat)
    (r : EncodeResult) (h : nx_to_SFILES g version rht fuel = some r) :
    (∀ s ∈ r.tokens, matchesUnit s = true → ¬ '-' ∈ s.data) ∧
      r.str = String.join r.tokens := by
  obtain ⟨x, hx, hstr⟩ := tokens_generalized2 g version rht fuel r h
  refine ⟨?_, hstr⟩
  intro s hs hm
  rw [hx] at hs
  exact generalize_no_dash x s hs hm

theorem C10_generalized_witness :
    ¬ '-' ∈ ("(raw)" : String).data :=
  (C10_generalized chainG "v1" false 100 chainResult (by rfl)).1 "(raw)"
    (by decide) (by rfl)



/-- `charListLe` is total. -/
theorem charListLe_total (a b : List Char) :
    charListLe a b = true ∨ charListLe b a = true := by
  induction a generalizing b with
  | nil => left; rfl
  | cons x xs ih =>
    cases b with
    | nil => right; rfl
    | cons y ys =>
      by_cases h1 : x.val < y.val
      · left; simp [charListLe, h1]
      · by_cases h2 : y.val < x.val
        · right; simp [charListLe, h2]
        · rcases ih ys with h | h
          · left; simp [charListLe, h1, h2, h]
          · right; simp [charListLe, h1, h2, h]

/-- `charListLe` is transitive. -/
theorem charListLe_trans {a b c : List Char} (h1 : charListLe a b = true)
    (h2 : charListLe b c = true) : charListLe a c = true := by
  induction a generalizing b c with
  | nil => rfl
  | cons x xs ih =>
    cases b with
    | nil => simp [charListLe] at h1
    | cons y ys =>
      cases c with
      | nil => simp [charListLe] at h2
      | cons z zs =>
        simp only [charListLe] at h1 h2 ⊢
        by_cases hxy : x.val < y.val
        · by_cases hyz : y.val < z.val
          · have hlt : x.val < z.val := Nat.lt_trans hxy hyz
            rw [if_pos hlt]
          · by_cases hzy : z.val < y.val
            · rw [if_neg hyz, if_pos hzy] at h2; cases h2
            · have hv : y.val = z.val := UInt32.le_antisymm (Nat.not_lt.mp hzy) (Nat.not_lt.mp hyz)
              have hlt : x.val < z.val := hv ▸ hxy
              rw [if_pos hlt]
        · by_cases hyx : y.val < x.val
          · rw [if_neg hxy, if_pos hyx] at h1; cases h1
          · have hv : x.val = y.val := UInt32.le_antisymm (Nat.not_lt.mp hyx) (Nat.not_lt.mp hxy)
            rw [if_neg hxy, if_neg hyx] at h1
            by_cases hyz : y.val < z.val
            · have hlt : x.val < z.val := hv ▸ hyz
              rw [if_pos hlt]
            · by_cases hzy : z.val < y.val
              · rw [if_neg hyz, if_pos hzy] at h2; cases h2
              · rw [if_neg hyz, if_neg hzy] at h2
                have hxz : ¬ x.val < z.val := by rw [hv]; exact hyz
                have hzx : ¬ z.val < x.val := by rw [hv]; exact hzy
                rw [if_neg hxz, if_neg hzx]
                exact ih h1 h2

/-- `charListLe` is antisymmetric. -/
theorem charListLe_antisymm {a b : List Char} (h1 : charListLe a b = true)
    (h2 : charListLe b a = true) : a = b := by
  induction a generalizing b with
  | nil =>
    cases b with
    | nil => rfl
    | cons y ys => simp [charListLe] at h2
  | cons x xs ih =>
    cases b with
    | nil => simp [charListLe] at h1
    | cons y ys =>
      simp only [charListLe] at h1 h2
      by_cases hxy : x.val < y.val
      · have hyx : ¬ y.val < x.val := fun h => Nat.lt_irrefl _ (Nat.lt_trans hxy h)
        rw [if_neg hyx, if_pos hxy] at h2; cases h2
      · by_cases hyx : y.val < x.val
        · rw [if_neg hxy, if_pos hyx] at h1; cases h1
        · have hv : x.val = y.val := UInt32.le_antisymm (Nat.not_lt.mp hyx) (Nat.not_lt.mp hxy)
          have hc : x = y := Char.ext hv
          rw [if_neg hxy, if_neg hyx] at h1
          rw [if_neg hyx, if_neg hxy] at h2
          rw [hc, ih h1 h2]

/-- `strLe` is total. -/
theorem strLe_total (a b : String) : strLe a b = true ∨ strLe b a = true :=
  charListLe_total a.data b.data

/-- `strLe` is transitive. -/
theorem strLe_trans {a b c : String} (h1 : strLe a b = true)
    (h2 : strLe b c = true) : strLe a c = true :=
  charListLe_trans h1 h2

/-- `strLe` is antisymmetric. -/
theorem strLe_antisymm {a b : String} (h1 : strLe a b = true)
    (h2 : strLe b a = true) : a = b := by
  have := charListLe_antisymm h1 h2
  cases a; cases b; exact congrArg String.mk this

/-- Transitivity of the shared `(succ, num)` tail of the two sort keys. -/
theorem succKey_trans {Sa Sb Sc : String} {Na Nb Nc : Nat}
    (h1 : (if Sa ≠ Sb then strLe Sa Sb else decide (Na ≤ Nb)) = true)
    (h2 : (if Sb ≠ Sc then strLe Sb Sc else decide (Nb ≤ Nc)) = true) :
    (if Sa ≠ Sc then strLe Sa Sc else decide (Na ≤ Nc)) = true := by
  by_cases hab : Sa = Sb
  · rw [if_neg (not_not_intro hab)] at h1
    by_cases hbc : Sb = Sc
    · rw [if_neg (not_not_intro hbc)] at h2
      rw [if_neg (not_not_intro (hab.trans hbc))]
      have n1 := of_decide_eq_true h1
      have n2 := of_decide_eq_true h2
      exact decide_eq_true (Nat.le_trans n1 n2)
    · rw [if_pos hbc] at h2
      rw [if_pos (hab ▸ hbc), hab]
      exact h2
  · rw [if_pos hab] at h1
    by_cases hbc : Sb = Sc
    · rw [if_neg (not_not_intro hbc)] at h2
      rw [if_pos (hbc ▸ hab), ← hbc]
      exact h1
    · rw [if_pos hbc] at h2
      by_cases hac : Sa = Sc
      · exact absurd (strLe_antisymm h1 (hac ▸ h2)) hab
      · rw [if_pos hac]
        exact strLe_trans h1 h2

/-- Totality of the shared `(succ, num)` tail of the two sort keys. -/
theorem succKey_total (Sa Sb : String) (Na Nb : Nat) :
    (if Sa ≠ Sb then strLe Sa Sb else decide (Na ≤ Nb)) = true ∨
      (if Sb ≠ Sa then strLe Sb Sa else decide (Nb ≤ Na)) = true := by
  by_cases hab : Sa = Sb
  · rw [if_neg (not_not_intro hab), if_neg (not_not_intro hab.symm)]
    rcases Nat.le_total Na Nb with h | h
    · left; exact decide_eq_true h
    · right; exact decide_eq_true h
  · rw [if_pos hab, if_pos (Ne.symm hab)]
    exact strLe_total Sa Sb

/-- `keyLeNeg` is total. -/
theorem keyLeNeg_total (a b : NodeEntry) :
    keyLeNeg a b = true ∨ keyLeNeg b a = true := by
  unfold keyLeNeg
  by_cases hl : a.len = b.len
  · rw [if_neg (not_not_intro hl), if_neg (not_not_intro hl.symm)]
    exact succKey_total a.succ b.succ (nodeNum a.name) (nodeNum b.name)
  · rw [if_pos hl, if_pos (Ne.symm hl)]
    rcases Nat.lt_or_ge a.len b.len with h | h
    · right; exact decide_eq_true h
    · left; exact decide_eq_true (Nat.lt_of_le_of_ne h (Ne.symm hl))

/-- `keyLeNeg` is transitive. -/
theorem keyLeNeg_trans {a b c : NodeEntry} (h1 : keyLeNeg a b = true)
    (h2 : keyLeNeg b c = true) : keyLeNeg a c = true := by
  unfold keyLeNeg at h1 h2 ⊢
  by_cases hab : a.len = b.len
  · rw [if_neg (not_not_intro hab)] at h1
    by_cases hbc : b.len = c.len
    · rw [if_neg (not_not_intro hbc)] at h2
      rw [if_neg (not_not_intro (hab.trans hbc))]
      exact succKey_trans h1 h2
    · rw [if_pos hbc] at h2
      rw [if_pos (hab ▸ hbc), hab]
      exact h2
  · rw [if_pos hab] at h1
    have l1 := of_decide_eq_true h1
    by_cases hbc : b.len = c.len
    · rw [if_pos (fun h => hab (h.trans hbc.symm))]
      exact decide_eq_true (hbc ▸ l1)
    · rw [if_pos hbc] at h2
      have l2 := of_decide_eq_true h2
      have : c.len < a.len := Nat.lt_trans l2 l1
      rw [if_pos (fun h => Nat.lt_irrefl _ (h ▸ this))]
      exact decide_eq_true this

/-- `keyLePos` is total. -/
theorem keyLePos_total (a b : NodeEntry) :
    keyLePos a b = true ∨ keyLePos b a = true := by
  unfold keyLePos
  by_cases hl : a.len = b.len
  · rw [if_neg (not_not_intro hl), if_neg (not_not_intro hl.symm)]
    exact succKey_total a.succ b.succ (nodeNum a.name) (nodeNum b.name)
  · rw [if_pos hl, if_pos (Ne.symm hl)]
    rcases Nat.lt_or_ge b.len a.len with h | h
    · right; exact decide_eq_true h
    · left; exact decide_eq_true (Nat.lt_of_le_of_ne h hl)

/-- `keyLePos` is transitive. -/
theorem keyLePos_trans {a b c : NodeEntry} (h1 : keyLePos a b = true)
    (h2 : keyLePos b c = true) : keyLePos a c = true := by
  unfold keyLePos at h1 h2 ⊢
  by_cases hab : a.len = b.len
  · rw [if_neg (not_not_intro hab)] at h1
    by_cases hbc : b.len = c.len
    · rw [if_neg (not_not_intro hbc)] at h2
      rw [if_neg (not_not_intro (hab.trans hbc))]
      exact succKey_trans h1 h2
    · rw [if_pos hbc] at h2
      rw [if_pos (hab ▸ hbc), hab]
      exact h2
  · rw [if_pos hab] at h1
    have l1 := of_decide_eq_true h1
    by_cases hbc : b.len = c.len
    · rw [if_pos (fun h => hab (h.trans hbc.symm))]
      exact decide_eq_true (hbc ▸ l1)
    · rw [if_pos hbc] at h2
      have l2 := of_decide_eq_true h2
      have : a.len < c.len := Nat.lt_trans l1 l2
      rw [if_pos (fun h => Nat.lt_irrefl _ (h ▸ this))]
      exact decide_eq_true this

instance instTotalKeyLeNeg : IsTotal NodeEntry (fun a b => keyLeNeg a b = true) :=
  ⟨keyLeNeg_total⟩

instance instTransKeyLeNeg : IsTrans NodeEntry (fun a b => keyLeNeg a b = true) :=
  ⟨fun _ _ _ => keyLeNeg_trans⟩

instance instTotalKeyLePos : IsTotal NodeEntry (fun a b => keyLePos a b = true) :=
  ⟨keyLePos_total⟩

instance instTransKeyLePos : IsTrans NodeEntry (fun a b => keyLePos a b = true) :=
  ⟨fun _ _ _ => keyLePos_trans⟩

/-- C4 (amended): `rank_by_dfs_tree` concatenates four blocks in the fixed
order signal-class, output, input, other; each block is a permutation of the
entries of that class, the first three blocks are sorted by the key
`(-subtree size, joined subtree string, instance number)` and the last by
`(subtree size, joined subtree string, instance number)`. -/
theorem C4_amended_structure (d : List (String × List String)) :
    ∃ sg out inp oth : List NodeEntry,
      rank_by_dfs_tree d =
        sg.map NodeEntry.name ++ out.map NodeEntry.name ++
          inp.map NodeEntry.name ++ oth.map NodeEntry.name ∧
      sg.Perm ((entriesOf d).filter (fun e => entryClass e == 0)) ∧
      out.Perm ((entriesOf d).filter (fun e => entryClass e == 1)) ∧
      inp.Perm ((entriesOf d).filter (fun e => entryClass e == 2)) ∧
      oth.Perm ((entriesOf d).filter (fun e => entryClass e == 3)) ∧
      sg.Sorted (fun a b => keyLeNeg a b = true) ∧
      out.Sorted (fun a b => keyLeNeg a b = true) ∧
      inp.Sorted (fun a b => keyLeNeg a b = true) ∧
      oth.Sorted (fun a b => keyLePos a b = true) :=
  ⟨_, _, _, _, rfl, List.perm_insertionSort _ _, List.perm_insertionSort _ _,
    List.perm_insertionSort _ _, List.perm_insertionSort _ _,
    List.sorted_insertionSort _ _, List.sorted_insertionSort _ _,
    List.sorted_insertionSort _ _, List.sorted_insertionSort _ _⟩

end SFILES2
